import Mathlib

/-!
Verification development for the asfv1 FV-1 assembler (src/asfv1.py, v1.2.7).

The program is shallowly embedded: Python integers become `ℤ`, Python floats
become `ℚ` (every constant the assembler manipulates in the claims under study
is a dyadic rational, and multiplication by a power of two is exact in IEEE
double precision, so the rational model agrees with CPython on these values),
Python's `round` (round-half-to-even on floats) becomes `roundEven`, Python
dicts become association lists with prepend-update / first-match-lookup, and
`sys.exit` / raised exceptions become an exception monad.  Fallible or
state-dependent routines are modelled in a state monad `M` over the parser
state `St`.  Loops of the source that have no structural termination measure
take an explicit fuel argument; exhausting fuel yields the distinguished
result `PErr.fuel`, which never occurs in the concrete runs evaluated below.
-/

namespace Asfv1

/-- Python's `round` on a real value: round half to even (banker's rounding).
`int(round(x))` in the source is exactly this function on our rational model. -/
def roundEven (q : ℚ) : ℤ :=
  let f : ℤ := ⌊q⌋
  let r : ℚ := q - (f : ℚ)
  if r < 1/2 then f
  else if 1/2 < r then f + 1
  else if f % 2 = 0 then f else f + 1

/-- A Python numeric value flowing through the assembler: `int` or `float`.
Floats are modelled as exact rationals (see the file comment). -/
inductive Val where
  | int (i : ℤ)
  | real (q : ℚ)
  deriving DecidableEq, Repr

/-- Numeric content of a value, as used when Python compares an int with a
float (the comparison is exact in both CPython and this model). -/
def Val.toQ : Val → ℚ
  | .int i => (i : ℚ)
  | .real q => q

/-- Python's `int(x) == x` test: true for every int and for integral floats. -/
def Val.isIntegral : Val → Bool
  | .int _ => true
  | .real q => q.den = 1

/-- Python's `int(x)` (truncation toward zero); in the source it is only
applied to values passing `int(x) == x`, where it is exact. -/
def Val.truncInt : Val → ℤ
  | .int i => i
  | .real q => q.num / (q.den : ℤ)

/-- Tag test mirroring Python's `isinstance(x, int)`. -/
def Val.isInt : Val → Bool
  | .int _ => true
  | .real _ => false

/-! ### Bridging Python's bitwise operators to arithmetic

Python ints are unbounded two's-complement integers; `Int.land` / `Int.lor`
(from Mathlib) implement exactly that semantics.  The source only ever
applies `&` with an all-ones mask `2^k - 1` inside the encoder, where it
coincides with `x mod 2^k`; the lemmas below establish that bridge. -/

theorem natLdiff_allOnes (k m : ℕ) :
    Nat.ldiff (2 ^ k - 1) m = 2 ^ k - 1 - m % 2 ^ k := by
  apply Nat.eq_of_testBit_eq
  intro i
  have hlt : m % 2 ^ k < 2 ^ k := Nat.mod_lt _ (Nat.two_pow_pos k)
  have h1 : 2 ^ k - 1 - m % 2 ^ k = 2 ^ k - (m % 2 ^ k + 1) := by omega
  rw [Nat.testBit_ldiff, h1, Nat.testBit_two_pow_sub_succ hlt,
      Nat.testBit_two_pow_sub_one, Nat.testBit_mod_two_pow]
  cases Decidable.em (i < k) with
  | inl h => simp [h]
  | inr h => simp [h]

/-- Two's-complement AND with an all-ones mask is reduction mod `2^k`,
for every integer (negative Python ints included). -/
theorem int_land_mask (x : ℤ) (k : ℕ) :
    Int.land x ((2 : ℤ) ^ k - 1) = x % (2 : ℤ) ^ k := by
  have h1 : (1 : ℕ) ≤ 2 ^ k := Nat.one_le_two_pow
  have hmask : ((2 : ℤ) ^ k - 1) = ((2 ^ k - 1 : ℕ) : ℤ) := by
    push_cast [h1]; ring
  have hKc : ((2 : ℤ) ^ k) = ((2 ^ k : ℕ) : ℤ) := by push_cast; ring
  cases x with
  | ofNat n =>
      rw [hmask]
      show ((n &&& (2 ^ k - 1) : ℕ) : ℤ) = (n : ℤ) % (2 : ℤ) ^ k
      rw [Nat.and_pow_two_sub_one_eq_mod, hKc]
      exact_mod_cast Int.ofNat_emod n (2 ^ k)
  | negSucc m =>
      rw [hmask]
      show ((Nat.ldiff (2 ^ k - 1) m : ℕ) : ℤ) = Int.negSucc m % (2 : ℤ) ^ k
      have hpos : (0 : ℤ) < (2 : ℤ) ^ k := by positivity
      rw [natLdiff_allOnes, Int.negSucc_emod m hpos, hKc,
          ← Int.ofNat_emod m (2 ^ k)]
      have hlt : m % 2 ^ k < 2 ^ k := Nat.mod_lt _ (Nat.two_pow_pos k)
      omega

/-- Bitwise OR of naturals with no common bits is plain addition. -/
theorem nat_or_eq_add (a : ℕ) : ∀ b : ℕ, a &&& b = 0 → a ||| b = a + b := by
  induction a using Nat.strongRecOn with
  | ind a ih =>
    intro b h
    rcases Nat.eq_zero_or_pos a with rfl | hpos
    · simp
    · have hm : (a &&& b) % 2 = 0 := by rw [h]
      have hd : a / 2 &&& b / 2 = 0 := by
        rw [← Nat.and_div_two, h]
      have ih2 := ih (a / 2) (Nat.div_lt_self hpos (by norm_num)) (b / 2) hd
      have h2a := Nat.div_add_mod a 2
      have h2b := Nat.div_add_mod b 2
      have h2o := Nat.div_add_mod (a ||| b) 2
      rw [Nat.or_div_two, ih2] at h2o
      have holt : (a ||| b) % 2 < 2 := Nat.mod_lt _ (by norm_num)
      have hnand : ¬(a % 2 = 1 ∧ b % 2 = 1) := by
        intro hc
        have := Nat.and_mod_two_eq_one.mpr hc
        omega
      rcases Nat.mod_two_eq_zero_or_one a with ha | ha <;>
        rcases Nat.mod_two_eq_zero_or_one b with hb | hb
      · have ho : (a ||| b) % 2 ≠ 1 := by
          intro hc
          rcases (@Nat.or_mod_two_eq_one a b).mp hc with h1 | h1 <;> omega
        omega
      · have ho := (@Nat.or_mod_two_eq_one a b).mpr (Or.inr hb)
        omega
      · have ho := (@Nat.or_mod_two_eq_one a b).mpr (Or.inl ha)
        omega
      · exact absurd ⟨ha, hb⟩ hnand

/-- A value below `2^s` shares no bits with a multiple of `2^s` whose bit span
ends below `s+k`, provided bits `s..s+k-1` of the low value vanish. -/
theorem nat_and_eq_zero_mid (a t s k : ℕ) (ht : t < 2 ^ (s + k))
    (hdvd : 2 ^ s ∣ t) (hmid : a / 2 ^ s % 2 ^ k = 0) : a &&& t = 0 := by
  apply Nat.eq_of_testBit_eq
  intro i
  rw [Nat.testBit_and, Nat.zero_testBit]
  rcases Nat.lt_or_ge i s with his | his
  · obtain ⟨c, rfl⟩ := hdvd
    have : (2 ^ s * c).testBit i = false := by
      rw [Nat.testBit_mul_pow_two]
      simp [Nat.not_le_of_lt his]
    simp [this]
  · rcases Nat.lt_or_ge i (s + k) with hik | hik
    · have hai : a.testBit i = false := by
        have hi : i = s + (i - s) := by omega
        rw [hi, ← Nat.testBit_shiftRight, Nat.shiftRight_eq_div_pow]
        have hdecomp := Nat.div_add_mod (a / 2 ^ s) (2 ^ k)
        rw [hmid, Nat.add_zero] at hdecomp
        rw [← hdecomp, Nat.testBit_mul_pow_two]
        have : ¬(i - s ≥ k) := by omega
        simp [this]
      simp [hai]
    · have hti : t.testBit i = false :=
        Nat.testBit_lt_two_pow (Nat.lt_of_lt_of_le ht
          (Nat.pow_le_pow_right (by norm_num) hik))
      simp [hti]

/-- `Int.lor` on nonnegative operands computes the `Nat` OR. -/
theorem int_lor_ofNat (a b : ℕ) : Int.lor ((a : ℕ) : ℤ) ((b : ℕ) : ℤ) = ((a ||| b : ℕ) : ℤ) :=
  rfl

/-- Disjoint-range bitwise OR on integers is addition: `a` sits strictly below
bit `s`, the new field `t` is a multiple of `2^s` fitting below bit `s+k`. -/
theorem int_lor_eq_add (a t : ℤ) (s k : ℕ) (ha0 : 0 ≤ a) (ht0 : 0 ≤ t)
    (ht : t < 2 ^ (s + k)) (hdvd : (2 : ℤ) ^ s ∣ t)
    (hmid : a / 2 ^ s % 2 ^ k = 0) : Int.lor a t = a + t := by
  obtain ⟨a', rfl⟩ := Int.eq_ofNat_of_zero_le ha0
  obtain ⟨t', rfl⟩ := Int.eq_ofNat_of_zero_le ht0
  rw [int_lor_ofNat]
  have hcast : ((2 : ℤ) ^ (s + k)) = ((2 ^ (s + k) : ℕ) : ℤ) := by push_cast; ring
  have ht' : t' < 2 ^ (s + k) := by
    rw [hcast] at ht
    exact_mod_cast ht
  have hdvd' : 2 ^ s ∣ t' := by
    rcases hdvd with ⟨c, hc⟩
    have hc0 : 0 ≤ c := by
      by_contra hneg
      push_neg at hneg
      nlinarith [pow_pos (show (0:ℤ) < 2 by norm_num) s]
    obtain ⟨c', rfl⟩ := Int.eq_ofNat_of_zero_le hc0
    refine ⟨c', ?_⟩
    have : ((t' : ℕ) : ℤ) = ((2 ^ s * c' : ℕ) : ℤ) := by
      rw [hc]; push_cast; ring
    exact_mod_cast this
  have hmid' : a' / 2 ^ s % 2 ^ k = 0 := by
    have h1 : ((a' / 2 ^ s % 2 ^ k : ℕ) : ℤ) = (a' : ℤ) / 2 ^ s % 2 ^ k := by
      push_cast [Int.ofNat_ediv]
      norm_num
    have : ((a' / 2 ^ s % 2 ^ k : ℕ) : ℤ) = 0 := by rw [h1, hmid]
    exact_mod_cast this
  rw [nat_or_eq_add a' t' (nat_and_eq_zero_mid a' t' s k ht' hdvd' hmid')]
  push_cast
  ring

/-! ### Constants of the source (`asfv1.py` lines 17-67) -/

def PROGLEN : ℕ := 128
def DELAYSIZE : ℤ := 32767
def MAXERR : ℕ := 10

def REF_S1_14 : ℚ := 2 ^ 14
def MIN_S1_14 : ℚ := -(2 ^ 1)
def MAX_S1_14 : ℚ := (2 ^ 15 - 1) / 2 ^ 14

def REF_S1_9 : ℚ := 2 ^ 9
def MIN_S1_9 : ℚ := -(2 ^ 1)
def MAX_S1_9 : ℚ := (2 ^ 10 - 1) / 2 ^ 9

def REF_S_10 : ℚ := 2 ^ 10
def MIN_S_10 : ℚ := -(2 ^ 0)
def MAX_S_10 : ℚ := (2 ^ 10 - 1) / 2 ^ 10

def REF_S_15 : ℚ := 2 ^ 15
def MIN_S_15 : ℚ := -(2 ^ 0)
def MAX_S_15 : ℚ := (2 ^ 15 - 1) / 2 ^ 15

def REF_S4_6 : ℚ := 2 ^ 6
def MIN_S4_6 : ℚ := -(2 ^ 4)
def MAX_S4_6 : ℚ := (2 ^ 10 - 1) / 2 ^ 6

def REF_S_23 : ℚ := 2 ^ 23
def MIN_S_23 : ℚ := -(2 ^ 0)
def MAX_S_23 : ℚ := (2 ^ 23 - 1) / 2 ^ 23

def M1 : ℤ := 0x01
def M2 : ℤ := 0x03
def M5 : ℤ := 0x1f
def M6 : ℤ := 0x3f
def M8 : ℤ := 0xff
def M9 : ℤ := 0x1ff
def M11 : ℤ := 0x7ff
def M14 : ℤ := 0x3fff
def M15 : ℤ := 0x7fff
def M16 : ℤ := 0xffff
def M24 : ℤ := 0xffffff
def M27 : ℤ := 0x7ffffff
def M32 : ℤ := 0xffffffff

/-! ### Machine instruction table and encoder (`op_tbl`, `op_gen`)

An entry is `(mnemonic, opcode, [(mask, left shift), ...])`, exactly the
layout of the Python dict (a dict with distinct keys is an association
list under first-match lookup). -/

def op_tbl : List (String × ℤ × List (ℤ × ℕ)) := [
  ("RDA",  0b00000, [(M15, 5), (M11, 21)]),
  ("RMPA", 0b00001, [(M11, 21)]),
  ("WRA",  0b00010, [(M15, 5), (M11, 21)]),
  ("WRAP", 0b00011, [(M15, 5), (M11, 21)]),
  ("RDAX", 0b00100, [(M6, 5), (M16, 16)]),
  ("RDFX", 0b00101, [(M6, 5), (M16, 16)]),
  ("LDAX", 0b00101, [(M6, 5)]),
  ("WRAX", 0b00110, [(M6, 5), (M16, 16)]),
  ("WRHX", 0b00111, [(M6, 5), (M16, 16)]),
  ("WRLX", 0b01000, [(M6, 5), (M16, 16)]),
  ("MAXX", 0b01001, [(M6, 5), (M16, 16)]),
  ("ABSA", 0b01001, []),
  ("MULX", 0b01010, [(M6, 5)]),
  ("LOG",  0b01011, [(M16, 16), (M11, 5)]),
  ("EXP",  0b01100, [(M16, 16), (M11, 5)]),
  ("SOF",  0b01101, [(M16, 16), (M11, 5)]),
  ("AND",  0b01110, [(M24, 8)]),
  ("CLR",  0b01110, []),
  ("OR",   0b01111, [(M24, 8)]),
  ("XOR",  0b10000, [(M24, 8)]),
  ("NOT",  0b10000, [(M24, 8)]),
  ("SKP",  0b10001, [(M5, 27), (M6, 21)]),
  ("JMP",  0b10001, [(M5, 27), (M6, 21)]),
  ("NOP",  0b10001, []),
  ("WLDS", 0b10010, [(M1, 29), (M9, 20), (M15, 5)]),
  ("WLDR", 0b10010, [(M2, 29), (M16, 13), (M2, 5)]),
  ("JAM",  0b10011, [(M2, 6)]),
  ("CHO",  0b10100, [(M2, 30), (M2, 21), (M6, 24), (M16, 5)]),
  ("RAW",  0b00000, [(M32, 0)])
]

/-- The loop body of `op_gen`: starting from the opcode, OR in
`(operand & mask) << shift` for each operand present (`i < len(mcode)`;
a missing operand is simply skipped).  Python's `x << s` on ints is exact
multiplication by `2^s`, embedded as such. -/
def fieldFold (acc : ℤ) : List (ℤ × ℕ) → List ℤ → ℤ
  | [], _ => acc
  | _ :: _, [] => acc
  | (m, s) :: fs, a :: rest => fieldFold (Int.lor acc (Int.land a m * 2 ^ s)) fs rest

/-- `op_gen(mcode)`: generate a machine instruction using the op gen table.
`mcode` is the parse-list `cmd` entry: mnemonic followed by operand values. -/
def op_gen (mcode : String × List ℤ) : ℤ :=
  match op_tbl.lookup mcode.1 with
  | some (opc, fields) => fieldFold opc fields mcode.2
  | none => 0

/-- Arithmetic normal form of an encoded word: each operand reduced modulo
its field width and placed at its shift; the masks in `op_tbl` are all of the
form `2^k - 1`, so `mask + 1` is the field modulus. -/
def fieldSum : List (ℤ × ℕ) → List ℤ → ℤ
  | [], _ => 0
  | _ :: _, [] => 0
  | (m, s) :: fs, a :: rest => a % (m + 1) * 2 ^ s + fieldSum fs rest

/-- One OR step of the encoder: the accumulated word has no bits in the
field's range `[s, s+k)`, so ORing the field in is addition. -/
theorem lorStep (acc r : ℤ) (s k : ℕ) (hacc0 : 0 ≤ acc) (hr0 : 0 ≤ r)
    (hrk : r < 2 ^ k) (hmid : acc / 2 ^ s % 2 ^ k = 0) :
    Int.lor acc (r * 2 ^ s) = acc + r * 2 ^ s := by
  apply int_lor_eq_add acc (r * 2 ^ s) s k hacc0 (by positivity)
  · have h1 : r * 2 ^ s < 2 ^ k * 2 ^ s :=
      mul_lt_mul_of_pos_right hrk (by positivity)
    calc r * 2 ^ s < 2 ^ k * 2 ^ s := h1
      _ = 2 ^ (s + k) := by rw [← pow_add, Nat.add_comm]
  · exact ⟨r, mul_comm _ _⟩
  · exact hmid

/-- Bounds of an integer remainder by a positive literal. -/
theorem emod_bounds (a : ℤ) (k : ℕ) :
    0 ≤ a % (2 : ℤ) ^ k ∧ a % (2 : ℤ) ^ k < 2 ^ k :=
  ⟨Int.emod_nonneg _ (by positivity), Int.emod_lt_of_pos _ (by positivity)⟩

/-- Layout package for field list `[(M15,5),(M11,21)]` (RDA, WRA, WRAP). -/
theorem pkgA (opc : ℤ) (h0 : 0 ≤ opc) (h5 : opc < 32) (args : List ℤ) :
    fieldFold opc [(M15, 5), (M11, 21)] args
        = opc + fieldSum [(M15, 5), (M11, 21)] args
    ∧ 0 ≤ fieldFold opc [(M15, 5), (M11, 21)] args
    ∧ fieldFold opc [(M15, 5), (M11, 21)] args < 2 ^ 32
    ∧ fieldFold opc [(M15, 5), (M11, 21)] args % 32 = opc := by
  have hM15 : M15 = (2 : ℤ) ^ 15 - 1 := by norm_num [M15]
  have hM11 : M11 = (2 : ℤ) ^ 11 - 1 := by norm_num [M11]
  rcases args with _ | ⟨a1, _ | ⟨a2, rest⟩⟩
  · simp only [fieldFold, fieldSum]
    omega
  · obtain ⟨b1, b1'⟩ := emod_bounds a1 15
    simp only [fieldFold, fieldSum, hM15, int_land_mask]
    rw [lorStep opc _ 5 15 h0 b1 b1' (by omega)]
    norm_num [M15]
    omega
  · obtain ⟨b1, b1'⟩ := emod_bounds a1 15
    obtain ⟨b2, b2'⟩ := emod_bounds a2 11
    simp only [fieldFold, fieldSum, hM15, hM11, int_land_mask]
    rw [lorStep opc _ 5 15 h0 b1 b1' (by omega)]
    rw [lorStep _ _ 21 11 (by omega) b2 b2' (by omega)]
    norm_num [M15, M11]
    omega

/-- Layout package for `[(M6,5),(M16,16)]` (RDAX, RDFX, WRAX, WRHX, WRLX, MAXX). -/
theorem pkgB (opc : ℤ) (h0 : 0 ≤ opc) (h5 : opc < 32) (args : List ℤ) :
    fieldFold opc [(M6, 5), (M16, 16)] args
        = opc + fieldSum [(M6, 5), (M16, 16)] args
    ∧ 0 ≤ fieldFold opc [(M6, 5), (M16, 16)] args
    ∧ fieldFold opc [(M6, 5), (M16, 16)] args < 2 ^ 32
    ∧ fieldFold opc [(M6, 5), (M16, 16)] args % 32 = opc := by
  have hM6 : M6 = (2 : ℤ) ^ 6 - 1 := by norm_num [M6]
  have hM16 : M16 = (2 : ℤ) ^ 16 - 1 := by norm_num [M16]
  rcases args with _ | ⟨a1, _ | ⟨a2, rest⟩⟩
  · simp only [fieldFold, fieldSum]
    omega
  · obtain ⟨b1, b1'⟩ := emod_bounds a1 6
    simp only [fieldFold, fieldSum, hM6, int_land_mask]
    rw [lorStep opc _ 5 6 h0 b1 b1' (by omega)]
    norm_num [M6]
    omega
  · obtain ⟨b1, b1'⟩ := emod_bounds a1 6
    obtain ⟨b2, b2'⟩ := emod_bounds a2 16
    simp only [fieldFold, fieldSum, hM6, hM16, int_land_mask]
    rw [lorStep opc _ 5 6 h0 b1 b1' (by omega)]
    rw [lorStep _ _ 16 16 (by omega) b2 b2' (by omega)]
    norm_num [M6, M16]
    omega

/-- Layout package for `[(M16,16),(M11,5)]` (LOG, EXP, SOF). -/
theorem pkgC (opc : ℤ) (h0 : 0 ≤ opc) (h5 : opc < 32) (args : List ℤ) :
    fieldFold opc [(M16, 16), (M11, 5)] args
        = opc + fieldSum [(M16, 16), (M11, 5)] args
    ∧ 0 ≤ fieldFold opc [(M16, 16), (M11, 5)] args
    ∧ fieldFold opc [(M16, 16), (M11, 5)] args < 2 ^ 32
    ∧ fieldFold opc [(M16, 16), (M11, 5)] args % 32 = opc := by
  have hM16 : M16 = (2 : ℤ) ^ 16 - 1 := by norm_num [M16]
  have hM11 : M11 = (2 : ℤ) ^ 11 - 1 := by norm_num [M11]
  rcases args with _ | ⟨a1, _ | ⟨a2, rest⟩⟩
  · simp only [fieldFold, fieldSum]
    omega
  · obtain ⟨b1, b1'⟩ := emod_bounds a1 16
    simp only [fieldFold, fieldSum, hM16, int_land_mask]
    rw [lorStep opc _ 16 16 h0 b1 b1' (by omega)]
    norm_num [M16]
    omega
  · obtain ⟨b1, b1'⟩ := emod_bounds a1 16
    obtain ⟨b2, b2'⟩ := emod_bounds a2 11
    simp only [fieldFold, fieldSum, hM16, hM11, int_land_mask]
    rw [lorStep opc _ 16 16 h0 b1 b1' (by omega)]
    rw [lorStep _ _ 5 11 (by omega) b2 b2' (by omega)]
    norm_num [M16, M11]
    omega

/-- Layout package for `[(M5,27),(M6,21)]` (SKP, JMP). -/
theorem pkgD (opc : ℤ) (h0 : 0 ≤ opc) (h5 : opc < 32) (args : List ℤ) :
    fieldFold opc [(M5, 27), (M6, 21)] args
        = opc + fieldSum [(M5, 27), (M6, 21)] args
    ∧ 0 ≤ fieldFold opc [(M5, 27), (M6, 21)] args
    ∧ fieldFold opc [(M5, 27), (M6, 21)] args < 2 ^ 32
    ∧ fieldFold opc [(M5, 27), (M6, 21)] args % 32 = opc := by
  have hM5 : M5 = (2 : ℤ) ^ 5 - 1 := by norm_num [M5]
  have hM6 : M6 = (2 : ℤ) ^ 6 - 1 := by norm_num [M6]
  rcases args with _ | ⟨a1, _ | ⟨a2, rest⟩⟩
  · simp only [fieldFold, fieldSum]
    omega
  · obtain ⟨b1, b1'⟩ := emod_bounds a1 5
    simp only [fieldFold, fieldSum, hM5, int_land_mask]
    rw [lorStep opc _ 27 5 h0 b1 b1' (by omega)]
    norm_num [M5]
    omega
  · obtain ⟨b1, b1'⟩ := emod_bounds a1 5
    obtain ⟨b2, b2'⟩ := emod_bounds a2 6
    simp only [fieldFold, fieldSum, hM5, hM6, int_land_mask]
    rw [lorStep opc _ 27 5 h0 b1 b1' (by omega)]
    rw [lorStep _ _ 21 6 (by omega) b2 b2' (by omega)]
    norm_num [M5, M6]
    omega

/-- Layout package for `[(M1,29),(M9,20),(M15,5)]` (WLDS). -/
theorem pkgE (opc : ℤ) (h0 : 0 ≤ opc) (h5 : opc < 32) (args : List ℤ) :
    fieldFold opc [(M1, 29), (M9, 20), (M15, 5)] args
        = opc + fieldSum [(M1, 29), (M9, 20), (M15, 5)] args
    ∧ 0 ≤ fieldFold opc [(M1, 29), (M9, 20), (M15, 5)] args
    ∧ fieldFold opc [(M1, 29), (M9, 20), (M15, 5)] args < 2 ^ 32
    ∧ fieldFold opc [(M1, 29), (M9, 20), (M15, 5)] args % 32 = opc := by
  have hM1 : M1 = (2 : ℤ) ^ 1 - 1 := by norm_num [M1]
  have hM9 : M9 = (2 : ℤ) ^ 9 - 1 := by norm_num [M9]
  have hM15 : M15 = (2 : ℤ) ^ 15 - 1 := by norm_num [M15]
  rcases args with _ | ⟨a1, _ | ⟨a2, _ | ⟨a3, rest⟩⟩⟩
  · simp only [fieldFold, fieldSum]
    omega
  · obtain ⟨b1, b1'⟩ := emod_bounds a1 1
    simp only [fieldFold, fieldSum, hM1, int_land_mask]
    rw [lorStep opc _ 29 1 h0 b1 b1' (by omega)]
    norm_num [M1]
    omega
  · obtain ⟨b1, b1'⟩ := emod_bounds a1 1
    obtain ⟨b2, b2'⟩ := emod_bounds a2 9
    simp only [fieldFold, fieldSum, hM1, hM9, int_land_mask]
    rw [lorStep opc _ 29 1 h0 b1 b1' (by omega)]
    rw [lorStep _ _ 20 9 (by omega) b2 b2' (by omega)]
    norm_num [M1, M9]
    omega
  · obtain ⟨b1, b1'⟩ := emod_bounds a1 1
    obtain ⟨b2, b2'⟩ := emod_bounds a2 9
    obtain ⟨b3, b3'⟩ := emod_bounds a3 15
    simp only [fieldFold, fieldSum, hM1, hM9, hM15, int_land_mask]
    rw [lorStep opc _ 29 1 h0 b1 b1' (by omega)]
    rw [lorStep _ _ 20 9 (by omega) b2 b2' (by omega)]
    rw [lorStep _ _ 5 15 (by omega) b3 b3' (by omega)]
    norm_num [M1, M9, M15]
    omega

/-- Layout package for `[(M2,29),(M16,13),(M2,5)]` (WLDR). -/
theorem pkgF (opc : ℤ) (h0 : 0 ≤ opc) (h5 : opc < 32) (args : List ℤ) :
    fieldFold opc [(M2, 29), (M16, 13), (M2, 5)] args
        = opc + fieldSum [(M2, 29), (M16, 13), (M2, 5)] args
    ∧ 0 ≤ fieldFold opc [(M2, 29), (M16, 13), (M2, 5)] args
    ∧ fieldFold opc [(M2, 29), (M16, 13), (M2, 5)] args < 2 ^ 32
    ∧ fieldFold opc [(M2, 29), (M16, 13), (M2, 5)] args % 32 = opc := by
  have hM2 : M2 = (2 : ℤ) ^ 2 - 1 := by norm_num [M2]
  have hM16 : M16 = (2 : ℤ) ^ 16 - 1 := by norm_num [M16]
  rcases args with _ | ⟨a1, _ | ⟨a2, _ | ⟨a3, rest⟩⟩⟩
  · simp only [fieldFold, fieldSum]
    omega
  · obtain ⟨b1, b1'⟩ := emod_bounds a1 2
    simp only [fieldFold, fieldSum, hM2, int_land_mask]
    rw [lorStep opc _ 29 2 h0 b1 b1' (by omega)]
    norm_num [M2]
    omega
  · obtain ⟨b1, b1'⟩ := emod_bounds a1 2
    obtain ⟨b2, b2'⟩ := emod_bounds a2 16
    simp only [fieldFold, fieldSum, hM2, hM16, int_land_mask]
    rw [lorStep opc _ 29 2 h0 b1 b1' (by omega)]
    rw [lorStep _ _ 13 16 (by omega) b2 b2' (by omega)]
    norm_num [M2, M16]
    omega
  · obtain ⟨b1, b1'⟩ := emod_bounds a1 2
    obtain ⟨b2, b2'⟩ := emod_bounds a2 16
    obtain ⟨b3, b3'⟩ := emod_bounds a3 2
    simp only [fieldFold, fieldSum, hM2, hM16, int_land_mask]
    rw [lorStep opc _ 29 2 h0 b1 b1' (by omega)]
    rw [lorStep _ _ 13 16 (by omega) b2 b2' (by omega)]
    rw [lorStep _ _ 5 2 (by omega) b3 b3' (by omega)]
    norm_num [M2, M16]
    omega

/-- Layout package for `[(M2,30),(M2,21),(M6,24),(M16,5)]` (CHO). -/
theorem pkgG (opc : ℤ) (h0 : 0 ≤ opc) (h5 : opc < 32) (args : List ℤ) :
    fieldFold opc [(M2, 30), (M2, 21), (M6, 24), (M16, 5)] args
        = opc + fieldSum [(M2, 30), (M2, 21), (M6, 24), (M16, 5)] args
    ∧ 0 ≤ fieldFold opc [(M2, 30), (M2, 21), (M6, 24), (M16, 5)] args
    ∧ fieldFold opc [(M2, 30), (M2, 21), (M6, 24), (M16, 5)] args < 2 ^ 32
    ∧ fieldFold opc [(M2, 30), (M2, 21), (M6, 24), (M16, 5)] args % 32 = opc := by
  have hM2 : M2 = (2 : ℤ) ^ 2 - 1 := by norm_num [M2]
  have hM6 : M6 = (2 : ℤ) ^ 6 - 1 := by norm_num [M6]
  have hM16 : M16 = (2 : ℤ) ^ 16 - 1 := by norm_num [M16]
  rcases args with _ | ⟨a1, _ | ⟨a2, _ | ⟨a3, _ | ⟨a4, rest⟩⟩⟩⟩
  · simp only [fieldFold, fieldSum]
    omega
  · obtain ⟨b1, b1'⟩ := emod_bounds a1 2
    simp only [fieldFold, fieldSum, hM2, int_land_mask]
    rw [lorStep opc _ 30 2 h0 b1 b1' (by omega)]
    norm_num [M2]
    omega
  · obtain ⟨b1, b1'⟩ := emod_bounds a1 2
    obtain ⟨b2, b2'⟩ := emod_bounds a2 2
    simp only [fieldFold, fieldSum, hM2, int_land_mask]
    rw [lorStep opc _ 30 2 h0 b1 b1' (by omega)]
    rw [lorStep _ _ 21 2 (by omega) b2 b2' (by omega)]
    norm_num [M2]
    omega
  · obtain ⟨b1, b1'⟩ := emod_bounds a1 2
    obtain ⟨b2, b2'⟩ := emod_bounds a2 2
    obtain ⟨b3, b3'⟩ := emod_bounds a3 6
    simp only [fieldFold, fieldSum, hM2, hM6, int_land_mask]
    rw [lorStep opc _ 30 2 h0 b1 b1' (by omega)]
    rw [lorStep _ _ 21 2 (by omega) b2 b2' (by omega)]
    rw [lorStep _ _ 24 6 (by omega) b3 b3' (by omega)]
    norm_num [M2, M6]
    omega
  · obtain ⟨b1, b1'⟩ := emod_bounds a1 2
    obtain ⟨b2, b2'⟩ := emod_bounds a2 2
    obtain ⟨b3, b3'⟩ := emod_bounds a3 6
    obtain ⟨b4, b4'⟩ := emod_bounds a4 16
    simp only [fieldFold, fieldSum, hM2, hM6, hM16, int_land_mask]
    rw [lorStep opc _ 30 2 h0 b1 b1' (by omega)]
    rw [lorStep _ _ 21 2 (by omega) b2 b2' (by omega)]
    rw [lorStep _ _ 24 6 (by omega) b3 b3' (by omega)]
    rw [lorStep _ _ 5 16 (by omega) b4 b4' (by omega)]
    norm_num [M2, M6, M16]
    omega

/-- Layout package for `[(M11,21)]` (RMPA). -/
theorem pkgS21 (opc : ℤ) (h0 : 0 ≤ opc) (h5 : opc < 32) (args : List ℤ) :
    fieldFold opc [(M11, 21)] args = opc + fieldSum [(M11, 21)] args
    ∧ 0 ≤ fieldFold opc [(M11, 21)] args
    ∧ fieldFold opc [(M11, 21)] args < 2 ^ 32
    ∧ fieldFold opc [(M11, 21)] args % 32 = opc := by
  have hM11 : M11 = (2 : ℤ) ^ 11 - 1 := by norm_num [M11]
  rcases args with _ | ⟨a1, rest⟩
  · simp only [fieldFold, fieldSum]
    omega
  · obtain ⟨b1, b1'⟩ := emod_bounds a1 11
    simp only [fieldFold, fieldSum, hM11, int_land_mask]
    rw [lorStep opc _ 21 11 h0 b1 b1' (by omega)]
    norm_num [M11]
    omega

/-- Layout package for `[(M6,5)]` (MULX, LDAX). -/
theorem pkgS5 (opc : ℤ) (h0 : 0 ≤ opc) (h5 : opc < 32) (args : List ℤ) :
    fieldFold opc [(M6, 5)] args = opc + fieldSum [(M6, 5)] args
    ∧ 0 ≤ fieldFold opc [(M6, 5)] args
    ∧ fieldFold opc [(M6, 5)] args < 2 ^ 32
    ∧ fieldFold opc [(M6, 5)] args % 32 = opc := by
  have hM6 : M6 = (2 : ℤ) ^ 6 - 1 := by norm_num [M6]
  rcases args with _ | ⟨a1, rest⟩
  · simp only [fieldFold, fieldSum]
    omega
  · obtain ⟨b1, b1'⟩ := emod_bounds a1 6
    simp only [fieldFold, fieldSum, hM6, int_land_mask]
    rw [lorStep opc _ 5 6 h0 b1 b1' (by omega)]
    norm_num [M6]
    omega

/-- Layout package for `[(M24,8)]` (AND, OR, XOR, NOT). -/
theorem pkgS8 (opc : ℤ) (h0 : 0 ≤ opc) (h5 : opc < 32) (args : List ℤ) :
    fieldFold opc [(M24, 8)] args = opc + fieldSum [(M24, 8)] args
    ∧ 0 ≤ fieldFold opc [(M24, 8)] args
    ∧ fieldFold opc [(M24, 8)] args < 2 ^ 32
    ∧ fieldFold opc [(M24, 8)] args % 32 = opc := by
  have hM24 : M24 = (2 : ℤ) ^ 24 - 1 := by norm_num [M24]
  rcases args with _ | ⟨a1, rest⟩
  · simp only [fieldFold, fieldSum]
    omega
  · obtain ⟨b1, b1'⟩ := emod_bounds a1 24
    simp only [fieldFold, fieldSum, hM24, int_land_mask]
    rw [lorStep opc _ 8 24 h0 b1 b1' (by omega)]
    norm_num [M24]
    omega

/-- Layout package for `[(M2,6)]` (JAM). -/
theorem pkgS6 (opc : ℤ) (h0 : 0 ≤ opc) (h5 : opc < 32) (args : List ℤ) :
    fieldFold opc [(M2, 6)] args = opc + fieldSum [(M2, 6)] args
    ∧ 0 ≤ fieldFold opc [(M2, 6)] args
    ∧ fieldFold opc [(M2, 6)] args < 2 ^ 32
    ∧ fieldFold opc [(M2, 6)] args % 32 = opc := by
  have hM2 : M2 = (2 : ℤ) ^ 2 - 1 := by norm_num [M2]
  rcases args with _ | ⟨a1, rest⟩
  · simp only [fieldFold, fieldSum]
    omega
  · obtain ⟨b1, b1'⟩ := emod_bounds a1 2
    simp only [fieldFold, fieldSum, hM2, int_land_mask]
    rw [lorStep opc _ 6 2 h0 b1 b1' (by omega)]
    norm_num [M2]
    omega

/-- Layout package for `[(M32,0)]` with opcode 0 (RAW): the single field
spans the whole 32-bit word, including the (zero) opcode position. -/
theorem pkgRAW (args : List ℤ) :
    fieldFold 0 [(M32, 0)] args = 0 + fieldSum [(M32, 0)] args
    ∧ 0 ≤ fieldFold 0 [(M32, 0)] args
    ∧ fieldFold 0 [(M32, 0)] args < 2 ^ 32 := by
  have hM32 : M32 = (2 : ℤ) ^ 32 - 1 := by norm_num [M32]
  rcases args with _ | ⟨a1, rest⟩
  · simp only [fieldFold, fieldSum]
    omega
  · obtain ⟨b1, b1'⟩ := emod_bounds a1 32
    simp only [fieldFold, fieldSum, hM32, int_land_mask]
    rw [lorStep 0 _ 0 32 (le_refl 0) b1 b1' (by omega)]
    norm_num [M32]
    omega

/-- Layout package for an empty field list (ABSA, CLR, NOP). -/
theorem pkgZ (opc : ℤ) (h0 : 0 ≤ opc) (h5 : opc < 32) (args : List ℤ) :
    fieldFold opc [] args = opc + fieldSum [] args
    ∧ 0 ≤ fieldFold opc [] args
    ∧ fieldFold opc [] args < 2 ^ 32
    ∧ fieldFold opc [] args % 32 = opc := by
  simp only [fieldFold, fieldSum]
  omega

/-- Masked normal form of the encoder: for every mnemonic of the opcode
table and arbitrary integer operand values, `op_gen` produces
`opcode + Σ (argᵢ mod 2^kᵢ) · 2^sᵢ`: a word in `[0, 2^32)` in which each
operand only occupies its own field and (for every mnemonic except `RAW`,
whose single field deliberately spans the whole word) leaves the opcode in
bits 0-4 untouched. -/
theorem opGen_masked :
    ∀ e ∈ op_tbl, ∀ args : List ℤ,
      op_gen (e.1, args) = e.2.1 + fieldSum e.2.2 args
      ∧ 0 ≤ op_gen (e.1, args)
      ∧ op_gen (e.1, args) < 2 ^ 32
      ∧ (e.1 ≠ "RAW" → op_gen (e.1, args) % 32 = e.2.1) := by
  intro e he args
  simp only [op_tbl, List.mem_cons, List.not_mem_nil, or_false] at he
  rcases he with rfl | rfl | rfl | rfl | rfl | rfl | rfl | rfl | rfl | rfl |
    rfl | rfl | rfl | rfl | rfl | rfl | rfl | rfl | rfl | rfl |
    rfl | rfl | rfl | rfl | rfl | rfl | rfl | rfl | rfl
  · have hop : op_gen (("RDA"), args) = fieldFold 0 [(M15, 5), (M11, 21)] args := rfl
    have h := pkgA 0 (by norm_num) (by norm_num) args
    exact ⟨hop ▸ h.1, hop ▸ h.2.1, hop ▸ h.2.2.1, fun _ => hop ▸ h.2.2.2⟩
  · have hop : op_gen (("RMPA"), args) = fieldFold 1 [(M11, 21)] args := rfl
    have h := pkgS21 1 (by norm_num) (by norm_num) args
    exact ⟨hop ▸ h.1, hop ▸ h.2.1, hop ▸ h.2.2.1, fun _ => hop ▸ h.2.2.2⟩
  · have hop : op_gen (("WRA"), args) = fieldFold 2 [(M15, 5), (M11, 21)] args := rfl
    have h := pkgA 2 (by norm_num) (by norm_num) args
    exact ⟨hop ▸ h.1, hop ▸ h.2.1, hop ▸ h.2.2.1, fun _ => hop ▸ h.2.2.2⟩
  · have hop : op_gen (("WRAP"), args) = fieldFold 3 [(M15, 5), (M11, 21)] args := rfl
    have h := pkgA 3 (by norm_num) (by norm_num) args
    exact ⟨hop ▸ h.1, hop ▸ h.2.1, hop ▸ h.2.2.1, fun _ => hop ▸ h.2.2.2⟩
  · have hop : op_gen (("RDAX"), args) = fieldFold 4 [(M6, 5), (M16, 16)] args := rfl
    have h := pkgB 4 (by norm_num) (by norm_num) args
    exact ⟨hop ▸ h.1, hop ▸ h.2.1, hop ▸ h.2.2.1, fun _ => hop ▸ h.2.2.2⟩
  · have hop : op_gen (("RDFX"), args) = fieldFold 5 [(M6, 5), (M16, 16)] args := rfl
    have h := pkgB 5 (by norm_num) (by norm_num) args
    exact ⟨hop ▸ h.1, hop ▸ h.2.1, hop ▸ h.2.2.1, fun _ => hop ▸ h.2.2.2⟩
  · have hop : op_gen (("LDAX"), args) = fieldFold 5 [(M6, 5)] args := rfl
    have h := pkgS5 5 (by norm_num) (by norm_num) args
    exact ⟨hop ▸ h.1, hop ▸ h.2.1, hop ▸ h.2.2.1, fun _ => hop ▸ h.2.2.2⟩
  · have hop : op_gen (("WRAX"), args) = fieldFold 6 [(M6, 5), (M16, 16)] args := rfl
    have h := pkgB 6 (by norm_num) (by norm_num) args
    exact ⟨hop ▸ h.1, hop ▸ h.2.1, hop ▸ h.2.2.1, fun _ => hop ▸ h.2.2.2⟩
  · have hop : op_gen (("WRHX"), args) = fieldFold 7 [(M6, 5), (M16, 16)] args := rfl
    have h := pkgB 7 (by norm_num) (by norm_num) args
    exact ⟨hop ▸ h.1, hop ▸ h.2.1, hop ▸ h.2.2.1, fun _ => hop ▸ h.2.2.2⟩
  · have hop : op_gen (("WRLX"), args) = fieldFold 8 [(M6, 5), (M16, 16)] args := rfl
    have h := pkgB 8 (by norm_num) (by norm_num) args
    exact ⟨hop ▸ h.1, hop ▸ h.2.1, hop ▸ h.2.2.1, fun _ => hop ▸ h.2.2.2⟩
  · have hop : op_gen (("MAXX"), args) = fieldFold 9 [(M6, 5), (M16, 16)] args := rfl
    have h := pkgB 9 (by norm_num) (by norm_num) args
    exact ⟨hop ▸ h.1, hop ▸ h.2.1, hop ▸ h.2.2.1, fun _ => hop ▸ h.2.2.2⟩
  · have hop : op_gen (("ABSA"), args) = fieldFold 9 [] args := rfl
    have h := pkgZ 9 (by norm_num) (by norm_num) args
    exact ⟨hop ▸ h.1, hop ▸ h.2.1, hop ▸ h.2.2.1, fun _ => hop ▸ h.2.2.2⟩
  · have hop : op_gen (("MULX"), args) = fieldFold 10 [(M6, 5)] args := rfl
    have h := pkgS5 10 (by norm_num) (by norm_num) args
    exact ⟨hop ▸ h.1, hop ▸ h.2.1, hop ▸ h.2.2.1, fun _ => hop ▸ h.2.2.2⟩
  · have hop : op_gen (("LOG"), args) = fieldFold 11 [(M16, 16), (M11, 5)] args := rfl
    have h := pkgC 11 (by norm_num) (by norm_num) args
    exact ⟨hop ▸ h.1, hop ▸ h.2.1, hop ▸ h.2.2.1, fun _ => hop ▸ h.2.2.2⟩
  · have hop : op_gen (("EXP"), args) = fieldFold 12 [(M16, 16), (M11, 5)] args := rfl
    have h := pkgC 12 (by norm_num) (by norm_num) args
    exact ⟨hop ▸ h.1, hop ▸ h.2.1, hop ▸ h.2.2.1, fun _ => hop ▸ h.2.2.2⟩
  · have hop : op_gen (("SOF"), args) = fieldFold 13 [(M16, 16), (M11, 5)] args := rfl
    have h := pkgC 13 (by norm_num) (by norm_num) args
    exact ⟨hop ▸ h.1, hop ▸ h.2.1, hop ▸ h.2.2.1, fun _ => hop ▸ h.2.2.2⟩
  · have hop : op_gen (("AND"), args) = fieldFold 14 [(M24, 8)] args := rfl
    have h := pkgS8 14 (by norm_num) (by norm_num) args
    exact ⟨hop ▸ h.1, hop ▸ h.2.1, hop ▸ h.2.2.1, fun _ => hop ▸ h.2.2.2⟩
  · have hop : op_gen (("CLR"), args) = fieldFold 14 [] args := rfl
    have h := pkgZ 14 (by norm_num) (by norm_num) args
    exact ⟨hop ▸ h.1, hop ▸ h.2.1, hop ▸ h.2.2.1, fun _ => hop ▸ h.2.2.2⟩
  · have hop : op_gen (("OR"), args) = fieldFold 15 [(M24, 8)] args := rfl
    have h := pkgS8 15 (by norm_num) (by norm_num) args
    exact ⟨hop ▸ h.1, hop ▸ h.2.1, hop ▸ h.2.2.1, fun _ => hop ▸ h.2.2.2⟩
  · have hop : op_gen (("XOR"), args) = fieldFold 16 [(M24, 8)] args := rfl
    have h := pkgS8 16 (by norm_num) (by norm_num) args
    exact ⟨hop ▸ h.1, hop ▸ h.2.1, hop ▸ h.2.2.1, fun _ => hop ▸ h.2.2.2⟩
  · have hop : op_gen (("NOT"), args) = fieldFold 16 [(M24, 8)] args := rfl
    have h := pkgS8 16 (by norm_num) (by norm_num) args
    exact ⟨hop ▸ h.1, hop ▸ h.2.1, hop ▸ h.2.2.1, fun _ => hop ▸ h.2.2.2⟩
  · have hop : op_gen (("SKP"), args) = fieldFold 17 [(M5, 27), (M6, 21)] args := rfl
    have h := pkgD 17 (by norm_num) (by norm_num) args
    exact ⟨hop ▸ h.1, hop ▸ h.2.1, hop ▸ h.2.2.1, fun _ => hop ▸ h.2.2.2⟩
  · have hop : op_gen (("JMP"), args) = fieldFold 17 [(M5, 27), (M6, 21)] args := rfl
    have h := pkgD 17 (by norm_num) (by norm_num) args
    exact ⟨hop ▸ h.1, hop ▸ h.2.1, hop ▸ h.2.2.1, fun _ => hop ▸ h.2.2.2⟩
  · have hop : op_gen (("NOP"), args) = fieldFold 17 [] args := rfl
    have h := pkgZ 17 (by norm_num) (by norm_num) args
    exact ⟨hop ▸ h.1, hop ▸ h.2.1, hop ▸ h.2.2.1, fun _ => hop ▸ h.2.2.2⟩
  · have hop : op_gen (("WLDS"), args) = fieldFold 18 [(M1, 29), (M9, 20), (M15, 5)] args := rfl
    have h := pkgE 18 (by norm_num) (by norm_num) args
    exact ⟨hop ▸ h.1, hop ▸ h.2.1, hop ▸ h.2.2.1, fun _ => hop ▸ h.2.2.2⟩
  · have hop : op_gen (("WLDR"), args) = fieldFold 18 [(M2, 29), (M16, 13), (M2, 5)] args := rfl
    have h := pkgF 18 (by norm_num) (by norm_num) args
    exact ⟨hop ▸ h.1, hop ▸ h.2.1, hop ▸ h.2.2.1, fun _ => hop ▸ h.2.2.2⟩
  · have hop : op_gen (("JAM"), args) = fieldFold 19 [(M2, 6)] args := rfl
    have h := pkgS6 19 (by norm_num) (by norm_num) args
    exact ⟨hop ▸ h.1, hop ▸ h.2.1, hop ▸ h.2.2.1, fun _ => hop ▸ h.2.2.2⟩
  · have hop : op_gen (("CHO"), args) = fieldFold 20 [(M2, 30), (M2, 21), (M6, 24), (M16, 5)] args := rfl
    have h := pkgG 20 (by norm_num) (by norm_num) args
    exact ⟨hop ▸ h.1, hop ▸ h.2.1, hop ▸ h.2.2.1, fun _ => hop ▸ h.2.2.2⟩
  · have hop : op_gen (("RAW"), args) = fieldFold 0 [(M32, 0)] args := rfl
    have h := pkgRAW args
    exact ⟨hop ▸ h.1, hop ▸ h.2.1, hop ▸ h.2.2, fun hne => absurd rfl hne⟩

/-! ### Diagnostics

One constructor per distinct message template of the source; payloads retain
the data interpolated into the message where a claim depends on it.  Source
line numbers attached to messages are not modelled (no claim mentions them). -/

inductive Diag where
  | invalidOperator (txt : String)
  | invalidIntLiteral (txt : String)
  | eolScanningInt
  | invalidNumLiteral (txt : String)
  | unrecognisedInput (txt : String)
  | tooManyErrors
  | regOutOfRange (v : ℤ)
  | invalidReg
  | addrClamped (v : ℤ)
  | invalidAddr (v : ℤ)
  | offsetOutOfRange (v : ℤ)
  | invalidOffset
  | condOutOfRange (v : ℤ)
  | invalidCond
  | invalidChoType (t : String)
  | invalidChoFlags
  | rmpFlagsSet (v : ℤ)
  | sinFlagsSet (v : ℤ)
  | argClamped (fmt : String)
  | argOutOfRange (fmt : String)
  | invalidArg (fmt : String)
  | freqClamped (v : ℤ)
  | invalidFreq
  | invalidAmp
  | invalidLfo
  | missingArg
  | unexpectedInExpr
  | expectedSaw (expected : String)
  | missingOperand (mn : String)
  | excessOperands (mn : String)
  | maxProgramExceeded (mn : String)
  | unexpectedInstruction
  | undefinedLabel (name : String)
  | circularDef (label : String)
  | valueUndefined (label : String)
  | targetRedefined (lbl : String)
  | targetAssigned (lbl : String)
  | expectedEquMem
  | expectedLabel
  | reservedLabel (name : String)
  | labelRedefined (name : String)
  | memNotInteger (name : String)
  | invalidMemSize (v : ℤ)
  | delayExhausted
  | delayExceeds (v : ℤ)
  | skpTooLarge (t : String) (oft : ℤ)
  | skpNotFollow (t : String)
  | undefinedTargetSkp (t : String)
  | pyError
  | unexpectedTop
  | errorsInInput
  | infoReadInstructions (n : ℕ)
  deriving Repr

/-- Severity: `true` for the messages the source routes through
`scanerror`/`parseerror`/`doerror` (they count toward the error ceiling),
`false` for `parsewarn`/info messages. -/
def Diag.isError : Diag → Bool
  | .addrClamped _ => false
  | .argClamped _ => false
  | .freqClamped _ => false
  | .rmpFlagsSet _ => false
  | .sinFlagsSet _ => false
  | .labelRedefined _ => false
  | .missingArg => false
  | .infoReadInstructions _ => false
  | _ => true

/-- Recognise the "Circular definition of label ..." diagnostic. -/
def Diag.isCircular : Diag → Bool
  | .circularDef _ => true
  | _ => false

/-! ### Operand coercers (`fv1parse.__register__` .. `__lfo_rampamp__`)

Each coercer in the source first pulls a value from the expression evaluator
and then validates/converts it; the validation/conversion part is pure and
is embedded below as a function from the incoming `Val` to the resulting
bit field together with the diagnostics emitted, in emission order. -/

/-- Parameters of one fixed-point format: the field mask (`2^W - 1`), the
reference scale and the real bounds, plus the format name used in messages. -/
structure FixedFmt where
  name : String
  mask : ℤ
  ref : ℚ
  qmin : ℚ
  qmax : ℚ
  deriving Repr

def fmtS1_14 : FixedFmt := ⟨("S1_14"), M16, REF_S1_14, MIN_S1_14, MAX_S1_14⟩
def fmtS1_9 : FixedFmt := ⟨("S1_9"), M11, REF_S1_9, MIN_S1_9, MAX_S1_9⟩
def fmtS_10 : FixedFmt := ⟨("S_10"), M11, REF_S_10, MIN_S_10, MAX_S_10⟩
def fmtS_15 : FixedFmt := ⟨("S_15"), M16, REF_S_15, MIN_S_15, MAX_S_15⟩
def fmtS4_6 : FixedFmt := ⟨("S4_6"), M11, REF_S4_6, MIN_S4_6, MAX_S4_6⟩
def fmtS_23 : FixedFmt := ⟨("S_23"), M24, REF_S_23, MIN_S_23, MAX_S_23⟩

/-- Common body of `__s1_14__`, `__s1_9__`, `__s_10__`, `__s_23__`,
`__s4_6__` and (after its spinreals pre-step) `__s_15a__`: the six functions
of the source are textually parallel, differing only in the constants.
Integer arguments are range-checked against the field mask, real arguments
against the real bounds, with clamp-or-reject policy, and real arguments are
then scaled by REF and rounded (Python `int(round(x))`, half-to-even). -/
def sn_d (F : FixedFmt) (doclamp : Bool) (v : Val) : ℤ × List Diag :=
  match v with
  | .int a =>
      if a < 0 ∨ a > F.mask then
        if doclamp then
          ((if a < 0 then 0 else F.mask), [.argClamped F.name])
        else
          (0, [.argOutOfRange F.name])
      else
        (a, [])
  | .real q =>
      if q < F.qmin ∨ q > F.qmax then
        if doclamp then
          ((roundEven ((if q < F.qmin then F.qmin else F.qmax) * F.ref)),
           [.argClamped F.name])
        else
          (roundEven ((0 : ℚ) * F.ref), [.argOutOfRange F.name])
      else
        (roundEven (q * F.ref), [])

def s1_14 (doclamp : Bool) (v : Val) : ℤ × List Diag := sn_d fmtS1_14 doclamp v

def s1_9 (doclamp : Bool) (v : Val) : ℤ × List Diag := sn_d fmtS1_9 doclamp v

def s_10 (doclamp : Bool) (v : Val) : ℤ × List Diag := sn_d fmtS_10 doclamp v

def s4_6 (doclamp : Bool) (v : Val) : ℤ × List Diag := sn_d fmtS4_6 doclamp v

def s_23 (doclamp : Bool) (v : Val) : ℤ × List Diag := sn_d fmtS_23 doclamp v

/-- `__s_15a__`: in spinreals mode an integral value is first converted to a
Python int (`if self.spinreals and arg == int(arg): arg = int(arg)`), then
the common S_15 fixed-point body runs. -/
def s_15a (doclamp spinreals : Bool) (v : Val) : ℤ × List Diag :=
  let v' := if spinreals ∧ v.isIntegral then Val.int v.truncInt else v
  sn_d fmtS_15 doclamp v'

/-- `__u_32__`: raw 32-bit data; integers range-checked with clamp-or-reject,
non-integers rejected. -/
def u_32 (doclamp : Bool) (v : Val) : ℤ × List Diag :=
  match v with
  | .int a =>
      if a < 0 ∨ a > M32 then
        if doclamp then
          ((if a < 0 then 0 else M32), [.argClamped ("U_32")])
        else
          (0, [.argOutOfRange ("U_32")])
      else
        (a, [])
  | .real _ => (0, [.invalidArg ("U_32")])

/-- `__d_15__`: 15-bit delay address.  A value inside the real S_15 range is
scaled as a real; anything else is rounded to an int and range-checked
against `[-0x8000, 0x7fff]` with clamp-or-reject. -/
def d_15 (doclamp : Bool) (v : Val) : ℤ × List Diag :=
  let q := v.toQ
  if q < MIN_S_15 ∨ q > MAX_S_15 then
    let oft := roundEven q
    if oft < -0x8000 ∨ oft > M15 then
      if doclamp then
        let c : ℤ := if oft < -0x8000 then -0x8000 else M15
        (c, [.addrClamped c])
      else
        (0, [.invalidAddr oft])
    else
      (oft, [])
  else
    (roundEven (q * REF_S_15), [])

/-- `__register__`: integral value in `0..63`, no clamping. -/
def register (v : Val) : ℤ × List Diag :=
  if v.isIntegral then
    let reg := v.truncInt
    if reg < 0 ∨ reg > 63 then (0, [.regOutOfRange reg]) else (reg, [])
  else
    (0, [.invalidReg])

/-- `__offset__`: integral skip offset in `0..63`, no clamping. -/
def offset (v : Val) : ℤ × List Diag :=
  if v.isIntegral then
    let oft := v.truncInt
    if oft < 0 ∨ oft > M6 then (0, [.offsetOutOfRange oft]) else (oft, [])
  else
    (0, [.invalidOffset])

/-- `__condition__`: integral skip condition in `0..31`, no clamping. -/
def condition (v : Val) : ℤ × List Diag :=
  if v.isIntegral then
    let cond := v.truncInt
    if cond < 0 ∨ cond > M5 then (0, [.condOutOfRange cond]) else (cond, [])
  else
    (0, [.invalidCond])

/-- `__lfo__`: LFO selector, integral in `0..3`. -/
def lfoSel (v : Val) : ℤ × List Diag :=
  if v.isIntegral then
    let lfo := v.truncInt
    if lfo < 0 ∨ lfo > 3 then (0, [.invalidLfo]) else (lfo, [])
  else
    (0, [.invalidLfo])

/-- `__lfo_sinfreq__`: sine LFO frequency, integral in `0..511`,
clamp-or-reject. -/
def lfo_sinfreq (doclamp : Bool) (v : Val) : ℤ × List Diag :=
  if v.isIntegral then
    let freq := v.truncInt
    if freq < 0 ∨ freq > M9 then
      if doclamp then
        let c : ℤ := if freq < 0 then 0 else M9
        (c, [.freqClamped c])
      else
        (0, [.invalidFreq])
    else
      (freq, [])
  else
    (0, [.invalidFreq])

/-- `__lfo_rampfreq__`: ramp LFO frequency; values outside `[-0.5, MAX_S_15]`
are rounded and checked against `[-0x8000, 0x7fff]`, the rest scaled
by `2^15`. -/
def lfo_rampfreq (doclamp : Bool) (v : Val) : ℤ × List Diag :=
  let q := v.toQ
  if q < -(1/2) ∨ q > MAX_S_15 then
    let freq := roundEven q
    if freq < -0x8000 ∨ freq > M15 then
      if doclamp then
        let c : ℤ := if freq < -0x8000 then -0x8000 else M15
        (c, [.freqClamped c])
      else
        (0, [.invalidFreq])
    else
      (freq, [])
  else
    (roundEven (q * REF_S_15), [])

/-- `__lfo_rampamp__`: ramp amplitude via the fixed dictionary
`{4096:0, 2048:1, 1024:2, 512:3, 0:0, 1:1, 2:2, 3:3}`. -/
def lfo_rampamp (v : Val) : ℤ × List Diag :=
  if v.isIntegral then
    let a := v.truncInt
    if a = 4096 then (0, [])
    else if a = 2048 then (1, [])
    else if a = 1024 then (2, [])
    else if a = 512 then (3, [])
    else if a = 0 then (0, [])
    else if a = 1 then (1, [])
    else if a = 2 then (2, [])
    else if a = 3 then (3, [])
    else (0, [.invalidAmp])
  else
    (0, [.invalidAmp])

/-- `__choflags__`: integral flags in `0..63` (error and 0 otherwise); then
masked to `0x3e` for a ramp LFO (`lfo & 0x02` truthy) or `0x0f` for a sine
LFO, warning when set bits are discarded. -/
def choflags (lfo : ℤ) (v : Val) : ℤ × List Diag :=
  let p : ℤ × List Diag :=
    if v.isIntegral then
      let f := v.truncInt
      if f < 0 ∨ f > M6 then (0, [.invalidChoFlags]) else (f, [])
    else
      (0, [.invalidChoFlags])
  let oflags := p.1
  if Int.land lfo 0x02 ≠ 0 then
    let flags := Int.land oflags 0x3e
    (flags, p.2 ++ (if oflags ≠ flags then [.rmpFlagsSet flags] else []))
  else
    let flags := Int.land oflags 0x0f
    (flags, p.2 ++ (if oflags ≠ flags then [.sinFlagsSet flags] else []))

/-! ### Symbol table, parse list, and statement-level pure functions -/

/-- A symbol table value: a numeric (int or float) or — in the shape the
dereferencer anticipates — an alias naming another symbol.  In v1.2.7 the
expression evaluator only produces numerics, so `.alias` is never stored. -/
inductive SymVal where
  | num (v : Val)
  | alias (s : String)
  deriving DecidableEq, Repr

/-- Python dicts with distinct keys are modelled as association lists:
update is prepend, lookup is first match, membership is lookup success. -/
def SymTbl := List (String × SymVal)

/-- A parse-list record `{'cmd': [...], 'addr': .., 'target': .., 'line': ..}`.
Only `SKP` records carry a `target`/`line` key in the source; other records
use the defaults (the source never reads them there). -/
structure PLEntry where
  cmd : String × List ℤ
  addr : ℤ
  target : Option String := none
  line : ℕ := 0
  deriving DecidableEq, Repr

/-- The `MEM` arm of `__assembler__` (lines 1262-1290) once the length `n` has
been coerced to an int: clamp-or-reject `n` into `[0, DELAYSIZE]`, report
exhaustion, then bind `name`, `name#`, `name^` and advance the cursor.  The
bindings and the advance happen even when an exhaustion error was reported.
Returns (new symtbl, new delaymem, diagnostics in order). -/
def memApply (doclamp : Bool) (symtbl : List (String × SymVal)) (delaymem : ℤ)
    (name : String) (n : ℤ) : List (String × SymVal) × ℤ × List Diag :=
  let p : ℤ × List Diag :=
    if n < 0 ∨ n > DELAYSIZE then
      if doclamp then
        ((if n < 0 then 0 else DELAYSIZE), [])
      else
        (0, [.invalidMemSize n])
    else
      (n, [])
  let n' := p.1
  let top := delaymem + n'
  let ds2 : List Diag :=
    if delaymem > DELAYSIZE then [.delayExhausted]
    else if top > DELAYSIZE then [.delayExceeds n']
    else []
  ((name ++ ("^"), SymVal.num (.int (delaymem + n' / 2)))
      :: (name ++ ("#"), SymVal.num (.int top))
      :: (name, SymVal.num (.int delaymem))
      :: symtbl,
   top + 1,
   p.2 ++ ds2)

/-- `__target__` (lines 1211-1222): record `label ↦ icnt` in the jump table.
Both error paths (`Target .. redefined`, `Target .. already assigned`) fall
through to the assignment, which always happens. -/
def targetStep (jmptbl : List (String × ℤ)) (symtbl : List (String × SymVal))
    (icnt : ℤ) (lbl : String) : List (String × ℤ) × List Diag :=
  let ds1 : List Diag :=
    match jmptbl.lookup lbl with
    | some prev => if icnt ≠ prev then [.targetRedefined lbl] else []
    | none => []
  let ds2 : List Diag :=
    if (symtbl.lookup lbl).isSome then [.targetAssigned lbl] else []
  ((lbl, icnt) :: jmptbl, ds1 ++ ds2)

/-- One iteration of the backpatch loop at the end of `parse`
(lines 1312-1334), for a single parse-list record. -/
def patchOne (jmptbl : List (String × ℤ)) (e : PLEntry) : PLEntry × List Diag :=
  if e.cmd.1 = "SKP" then
    match e.target with
    | some t =>
        match jmptbl.lookup t with
        | some dest =>
            if dest > e.addr then
              let oft := dest - e.addr - 1
              if oft > M6 then
                (e, [.skpTooLarge t oft])
              else
                ({ e with cmd := (e.cmd.1, e.cmd.2.set 1 oft) }, [])
            else
              (e, [.skpNotFollow t])
        | none => (e, [.undefinedTargetSkp t])
    | none => (e, [])
  else
    (e, [])

/-- The padding loop of `__mkopcodes__` (lines 246-252): append empty
`SKP 0,0` records until the program is `PROGLEN` instructions long. -/
def padPl (pl : List PLEntry) : List PLEntry :=
  pl ++ (List.range' pl.length (PROGLEN - pl.length)).map
    (fun i => { cmd := (("SKP"), [0x00, 0x00]), addr := (i : ℤ) })

/-- `struct.pack_into('>I', ...)`: the four big-endian bytes of a 32-bit
word.  (`pack_into` raises on a value outside `[0, 2^32)`; every parse-list
record holds a table mnemonic, for which `opGen_masked` puts `op_gen` in
range.) -/
def wordBytes (w : ℕ) : List ℕ :=
  [w / 2 ^ 24 % 256, w / 2 ^ 16 % 256, w / 2 ^ 8 % 256, w % 256]

/-- `__mkopcodes__` (lines 240-258): pad the parse list and emit each record
as a big-endian 32-bit machine word, 4 bytes per instruction slot. -/
def mkopcodes (pl : List PLEntry) : List ℕ :=
  (padPl pl).flatMap (fun e => wordBytes (op_gen e.cmd).toNat)

/-! ### The parser state machine

`fv1parse` becomes a state monad over `St`; `sys.exit(code)` and Python
exceptions become the error channel `PErr`.  `PErr.fuel` signals exhaustion
of an explicit iteration bound and corresponds to no behaviour of the
source; the concrete runs below never produce it. -/

inductive PyExc where
  | typeError
  | zeroDiv
  | valueError
  | unsupported
  deriving DecidableEq, Repr

inductive PErr where
  | exit (code : ℤ)
  | pyexc (e : PyExc)
  | fuel
  deriving DecidableEq, Repr

inductive SymType where
  | EOF
  | MNEMONIC
  | ASSEMBLER
  | OPERATOR
  | INTEGER
  | FLOAT
  | TARGET
  | LABEL
  | ARGSEP
  deriving DecidableEq, Repr

/-- A scanner symbol `{'type':…, 'txt':…, 'stxt':…, 'val':…}`.  Python uses
`None` for the text fields of EOF; they are modelled as `""`. -/
structure Sym where
  typ : SymType
  txt : String
  stxt : String
  val : Option Val
  deriving DecidableEq, Repr

def eofSym : Sym := ⟨.EOF, "", "", none⟩

/-- The mutable fields of `fv1parse`.  `source` holds the remaining lines
already split into lexemes (the shell-style line splitter, `shlex`, is an
external collaborator; its per-line output is the input of this model). -/
structure St where
  doclamp : Bool
  spinreals : Bool
  delaymem : ℤ
  prevline : ℕ
  sline : ℕ
  icnt : ℤ
  sym : Sym
  ecount : ℕ
  source : List (List String)
  linebuf : List String
  pl : List PLEntry
  jmptbl : List (String × ℤ)
  symtbl : List (String × SymVal)
  log : List Diag
  deriving Repr

abbrev M (α : Type) := ExceptT PErr (StateM St) α

def emitLog (d : Diag) : M Unit :=
  modify fun st => { st with log := st.log ++ [d] }

/-- `scanerror`: record the message, bump the error count, abort with status
-1 past the ceiling. -/
def scanerror (d : Diag) : M Unit := do
  emitLog d
  modify fun st => { st with ecount := st.ecount + 1 }
  let st ← get
  if st.ecount > MAXERR then do
    emitLog .tooManyErrors
    throw (.exit (-1))

/-- `parseerror`: like `scanerror` with abort status -2. -/
def parseerror (d : Diag) : M Unit := do
  emitLog d
  modify fun st => { st with ecount := st.ecount + 1 }
  let st ← get
  if st.ecount > MAXERR then do
    emitLog .tooManyErrors
    throw (.exit (-2))

def parsewarn (d : Diag) : M Unit := emitLog d

/-- Emit the diagnostics a pure helper produced, routing each through
`parseerror` or `parsewarn` by severity, in order. -/
def emitDiags (ds : List Diag) : M Unit :=
  ds.forM fun d => if d.isError then parseerror d else parsewarn d

/-- The pre-populated symbol table (`fv1parse.__init__`). -/
def initSymtbl : List (String × SymVal) := [
  (("SIN0_RATE"), .num (.int 0x00)),
  (("SIN0_RANGE"), .num (.int 0x01)),
  (("SIN1_RATE"), .num (.int 0x02)),
  (("SIN1_RANGE"), .num (.int 0x03)),
  (("RMP0_RATE"), .num (.int 0x04)),
  (("RMP0_RANGE"), .num (.int 0x05)),
  (("RMP1_RATE"), .num (.int 0x06)),
  (("RMP1_RANGE"), .num (.int 0x07)),
  (("POT0"), .num (.int 0x10)),
  (("POT1"), .num (.int 0x11)),
  (("POT2"), .num (.int 0x12)),
  (("ADCL"), .num (.int 0x14)),
  (("ADCR"), .num (.int 0x15)),
  (("DACL"), .num (.int 0x16)),
  (("DACR"), .num (.int 0x17)),
  (("ADDR_PTR"), .num (.int 0x18)),
  (("REG0"), .num (.int 0x20)),
  (("REG1"), .num (.int 0x21)),
  (("REG2"), .num (.int 0x22)),
  (("REG3"), .num (.int 0x23)),
  (("REG4"), .num (.int 0x24)),
  (("REG5"), .num (.int 0x25)),
  (("REG6"), .num (.int 0x26)),
  (("REG7"), .num (.int 0x27)),
  (("REG8"), .num (.int 0x28)),
  (("REG9"), .num (.int 0x29)),
  (("REG10"), .num (.int 0x2a)),
  (("REG11"), .num (.int 0x2b)),
  (("REG12"), .num (.int 0x2c)),
  (("REG13"), .num (.int 0x2d)),
  (("REG14"), .num (.int 0x2e)),
  (("REG15"), .num (.int 0x2f)),
  (("REG16"), .num (.int 0x30)),
  (("REG17"), .num (.int 0x31)),
  (("REG18"), .num (.int 0x32)),
  (("REG19"), .num (.int 0x33)),
  (("REG20"), .num (.int 0x34)),
  (("REG21"), .num (.int 0x35)),
  (("REG22"), .num (.int 0x36)),
  (("REG23"), .num (.int 0x37)),
  (("REG24"), .num (.int 0x38)),
  (("REG25"), .num (.int 0x39)),
  (("REG26"), .num (.int 0x3a)),
  (("REG27"), .num (.int 0x3b)),
  (("REG28"), .num (.int 0x3c)),
  (("REG29"), .num (.int 0x3d)),
  (("REG30"), .num (.int 0x3e)),
  (("REG31"), .num (.int 0x3f)),
  (("SIN0"), .num (.int 0x00)),
  (("SIN1"), .num (.int 0x01)),
  (("RMP0"), .num (.int 0x02)),
  (("RMP1"), .num (.int 0x03)),
  (("RDA"), .num (.int 0x00)),
  (("SOF"), .num (.int 0x02)),
  (("RDAL"), .num (.int 0x03)),
  (("SIN"), .num (.int 0x00)),
  (("COS"), .num (.int 0x01)),
  (("REG"), .num (.int 0x02)),
  (("COMPC"), .num (.int 0x04)),
  (("COMPA"), .num (.int 0x08)),
  (("RPTR2"), .num (.int 0x10)),
  (("NA"), .num (.int 0x20)),
  (("RUN"), .num (.int 0x10)),
  (("ZRC"), .num (.int 0x08)),
  (("ZRO"), .num (.int 0x04)),
  (("GEZ"), .num (.int 0x02)),
  (("NEG"), .num (.int 0x01))
]

/-! ### Literal parsing helpers (Python `int(s, base)` / `float(s)`) -/

def digitVal? (base : ℕ) (c : Char) : Option ℕ :=
  let v : ℕ :=
    if c.isDigit then c.toNat - 48
    else if 'a' ≤ c ∧ c ≤ 'z' then c.toNat - 87
    else if 'A' ≤ c ∧ c ≤ 'Z' then c.toNat - 55
    else 99
  if v < base then some v else none

def digitsVal? (base : ℕ) (cs : List Char) : Option ℕ :=
  cs.foldl
    (fun acc c =>
      match acc, digitVal? base c with
      | some a, some d => some (a * base + d)
      | _, _ => none)
    (some 0)

/-- Python `int(s, base)` for the strings the scanner passes it: optional
sign, optional `0x`/`0b` prefix matching the base, then at least one digit. -/
def parseIntBase? (s : String) (base : ℕ) : Option ℤ :=
  let cs := s.data
  let p : ℤ × List Char :=
    match cs with
    | '+' :: t => (1, t)
    | '-' :: t => (-1, t)
    | _ => (1, cs)
  let cs2 : List Char :=
    match base, p.2 with
    | 16, '0' :: 'x' :: t => t
    | 16, '0' :: 'X' :: t => t
    | 2, '0' :: 'b' :: t => t
    | 2, '0' :: 'B' :: t => t
    | _, rest => rest
  if cs2.isEmpty then none
  else
    match digitsVal? base cs2 with
    | some n => some (p.1 * (n : ℤ))
    | none => none

/-- Python `float(s)` for the scanner-built strings `digits.digits` with an
optional `e`/`E` exponent.  Exact rational value; CPython rounds the result
to double precision, a difference no claim depends on. -/
def parseFloat? (s : String) : Option ℚ :=
  match s.splitOn (".") with
  | [ip, rest] =>
      if ip.data.isEmpty ∨ ¬ ip.data.all Char.isDigit then none
      else
        let ipn : ℕ := (digitsVal? 10 ip.data).getD 0
        let fracCs := rest.data.takeWhile Char.isDigit
        let tail := rest.data.drop fracCs.length
        let expv : Option ℤ :=
          match tail with
          | [] => some 0
          | c :: t =>
              if c = 'e' ∨ c = 'E' then
                let p : ℤ × List Char :=
                  match t with
                  | '+' :: r => (1, r)
                  | '-' :: r => (-1, r)
                  | _ => (1, t)
                if p.2.isEmpty ∨ ¬ p.2.all Char.isDigit then none
                else some (p.1 * ((digitsVal? 10 p.2).getD 0 : ℤ))
              else none
        match expv with
        | none => none
        | some e =>
            some (((ipn : ℚ) + (((digitsVal? 10 fracCs).getD 0 : ℕ) : ℚ)
                    / (10 : ℚ) ^ fracCs.length) * (10 : ℚ) ^ e)
  | _ => none

/-- `arg1.rstrip('^#')`. -/
def rstripModifiers (s : String) : String :=
  ⟨(s.data.reverse.dropWhile (fun c => c = '^' ∨ c = '#')).reverse⟩

def firstChar (s : String) : Char := s.data.headD ' '

/-! ### Python numeric operator semantics on `Val` -/

def pyNumAdd : Val → Val → Val
  | .int a, .int b => .int (a + b)
  | a, b => .real (a.toQ + b.toQ)

def pyNumSub : Val → Val → Val
  | .int a, .int b => .int (a - b)
  | a, b => .real (a.toQ - b.toQ)

def pyNumMul : Val → Val → Val
  | .int a, .int b => .int (a * b)
  | a, b => .real (a.toQ * b.toQ)

def pyNumDiv (a b : Val) : Except PyExc Val :=
  if b.toQ = 0 then .error .zeroDiv else .ok (.real (a.toQ / b.toQ))

def pyNumFloorDiv : Val → Val → Except PyExc Val
  | .int a, .int b => if b = 0 then .error .zeroDiv else .ok (.int (Int.fdiv a b))
  | a, b =>
      if b.toQ = 0 then .error .zeroDiv
      else .ok (.real ((⌊a.toQ / b.toQ⌋ : ℤ) : ℚ))

/-- `**`: int bases with nonnegative int exponents stay exact ints, the rest
follow CPython's float semantics except that irrational results (fractional
exponents) are flagged `unsupported` instead of being approximated. -/
def pyNumPow : Val → Val → Except PyExc Val
  | .int a, .int b =>
      if 0 ≤ b then .ok (.int (a ^ b.toNat))
      else if a = 0 then .error .zeroDiv
      else .ok (.real ((a : ℚ) ^ b))
  | a, b =>
      let aq := a.toQ
      let bq := b.toQ
      if bq.den = 1 then
        if aq = 0 ∧ bq.num < 0 then .error .zeroDiv
        else .ok (.real (aq ^ bq.num))
      else .error .unsupported

def pyShlOp : Val → Val → Except PyExc Val
  | .int a, .int b =>
      if b < 0 then .error .valueError else .ok (.int (a * 2 ^ b.toNat))
  | _, _ => .error .typeError

def pyShrOp : Val → Val → Except PyExc Val
  | .int a, .int b =>
      if b < 0 then .error .valueError else .ok (.int (Int.fdiv a (2 ^ b.toNat)))
  | _, _ => .error .typeError

def pyOrOp : Val → Val → Except PyExc Val
  | .int a, .int b => .ok (.int (Int.lor a b))
  | _, _ => .error .typeError

def pyXorOp : Val → Val → Except PyExc Val
  | .int a, .int b => .ok (.int (Int.xor a b))
  | _, _ => .error .typeError

def pyAndOp : Val → Val → Except PyExc Val
  | .int a, .int b => .ok (.int (Int.land a b))
  | _, _ => .error .typeError

def pyNeg : Val → Val
  | .int a => .int (-a)
  | .real q => .real (-q)

def pyInv : Val → Except PyExc Val
  | .int a => .ok (.int (-(a + 1)))
  | .real _ => .error .typeError

/-- The `INT` unary keyword: `acc = int(round(acc))`. -/
def pyIntRound : Val → Val
  | .int a => .int a
  | .real q => .int (roundEven q)

/-! ### Scanner (`fv1parse.__next__`) -/

/-- Iteration bound for the scanner loop: every pass either classifies a
token (consuming a lexeme), loads a line, or stops at EOF. -/
def scanFuel (st : St) : ℕ :=
  st.linebuf.length + (st.source.map (fun l => l.length + 1)).sum + 2

def mkSym (t : SymType) (txt stxt : String) (v : Option Val) : Sym :=
  ⟨t, txt, stxt, v⟩

/-- The `while self.sym is None` loop of `__next__`, returning the symbol it
settles on.  Branch order and pop timing follow the source exactly. -/
def nextSymLoop : ℕ → M Sym
  | 0 => throw .fuel
  | f + 1 => do
    let st ← get
    match st.linebuf with
    | [] =>
        match st.source with
        | line :: rest => do
            modify fun s =>
              { s with sline := s.sline + 1, linebuf := line, source := rest }
            nextSymLoop f
        | [] => pure eofSym
    | w :: lb1 =>
        let stxt := w.toUpper
        if (op_tbl.lookup stxt).isSome then do
          modify fun s => { s with linebuf := lb1 }
          pure (mkSym .MNEMONIC w stxt none)
        else if stxt = "EQU" ∨ stxt = "MEM" then do
          modify fun s => { s with linebuf := lb1 }
          pure (mkSym .ASSEMBLER w stxt none)
        else if stxt = "<" ∨ stxt = ">" ∨ stxt = "*" ∨ stxt = "/" then
          match lb1 with
          | nxt :: lb2 =>
              if nxt = w then do
                -- doubled operator: **, //, <<, >>
                modify fun s => { s with linebuf := lb2 }
                pure (mkSym .OPERATOR (w ++ nxt) (w ++ nxt) none)
              else do
                modify fun s => { s with linebuf := lb1 }
                if w = "<" ∨ w = ">" then do
                  scanerror (.invalidOperator w)
                  pure (mkSym .OPERATOR (w ++ w) (w ++ w) none)
                else
                  pure (mkSym .OPERATOR w w none)
          | [] => do
              -- end of line: the combining and validity block is skipped
              modify fun s => { s with linebuf := lb1 }
              pure (mkSym .OPERATOR w w none)
        else if stxt = "|" ∨ stxt = "^" ∨ stxt = "&" ∨ stxt = "+" ∨ stxt = "-"
            ∨ stxt = "~" ∨ stxt = "!" ∨ stxt = "(" ∨ stxt = ")" ∨ stxt = "INT" then do
          modify fun s => { s with linebuf := lb1 }
          pure (mkSym .OPERATOR w stxt none)
        else if firstChar stxt = '%' ∨ firstChar stxt = '$' then
          -- SpinASM style integer: prefix lexeme then digit lexeme
          let base : ℕ := if w = "$" then 16 else 2
          match lb1 with
          | ht :: lb2 => do
              modify fun s => { s with linebuf := lb2 }
              let htClean : String := ⟨ht.data.filter (· ≠ '_')⟩
              match parseIntBase? htClean base with
              | some ival =>
                  pure (mkSym .INTEGER (w ++ ht) (w ++ ht) (some (.int ival)))
              | none => do
                  scanerror (.invalidIntLiteral (w ++ ht))
                  pure (mkSym .INTEGER (w ++ ht) (w ++ ht) (some (.int 0)))
          | [] => do
              modify fun s => { s with linebuf := lb1 }
              scanerror .eolScanningInt
              pure (mkSym .INTEGER w w (some (.int 0)))
        else if (firstChar stxt).isDigit then
          -- INTEGER or FLOAT
          let intpart := w.toLower
          match lb1 with
          | "." :: lb2 =>
              match lb2 with
              | frac0 :: lb3 =>
                  -- possibly combine an exponent across lexemes
                  let p : String × List String :=
                    if frac0.endsWith ("e") then
                      match lb3 with
                      | ep :: lb4 =>
                          if ep = "+" ∨ ep = "-" then
                            match lb4 with
                            | d :: lb5 => (frac0 ++ ep ++ d, lb5)
                            | [] => (frac0 ++ ep, lb4)
                          else (frac0 ++ ep, lb4)
                      | [] => (frac0, lb3)
                    else (frac0, lb3)
                  do
                    modify fun s => { s with linebuf := p.2 }
                    let txt := intpart ++ (".") ++ p.1
                    match parseFloat? txt with
                    | some q => pure (mkSym .FLOAT txt txt (some (.real q)))
                    | none => do
                        scanerror (.invalidNumLiteral txt)
                        pure (mkSym .FLOAT txt txt (some (.real 0)))
              | [] => do
                  modify fun s => { s with linebuf := lb2 }
                  scanerror (.invalidNumLiteral (intpart ++ (".")))
                  pure (mkSym .FLOAT (intpart ++ (".0")) (intpart ++ (".0"))
                        (some (.real 0)))
          | _ =>
              if st.spinreals ∧ (intpart = "2" ∨ intpart = "1") then do
                modify fun s => { s with linebuf := lb1 }
                let q : ℚ := if intpart = "2" then 2 else 1
                pure (mkSym .FLOAT intpart (intpart ++ (".0")) (some (.real q)))
              else do
                modify fun s => { s with linebuf := lb1 }
                let base : ℕ :=
                  if intpart.startsWith ("0x") then 16
                  else if intpart.startsWith ("0b") then 2
                  else 10
                match parseIntBase? intpart base with
                | some ival =>
                    pure (mkSym .INTEGER intpart intpart (some (.int ival)))
                | none => do
                    scanerror (.invalidIntLiteral intpart)
                    pure (mkSym .INTEGER intpart intpart (some (.int 0)))
        else if (firstChar stxt).isAlpha then
          -- TARGET or LABEL
          match lb1 with
          | ":" :: lb2 => do
              modify fun s => { s with linebuf := lb2 }
              pure (mkSym .TARGET w stxt none)
          | m :: _ =>
              if (m = "^" ∨ m = "#")
                  ∧ (st.symtbl.lookup (stxt ++ m)).isSome then do
                modify fun s => { s with linebuf := lb1.drop 1 }
                pure (mkSym .LABEL (w ++ m) (stxt ++ m) none)
              else do
                modify fun s => { s with linebuf := lb1 }
                pure (mkSym .LABEL w stxt none)
          | [] => do
              modify fun s => { s with linebuf := lb1 }
              pure (mkSym .LABEL w stxt none)
        else if stxt = "," then do
          modify fun s => { s with linebuf := lb1 }
          pure (mkSym .ARGSEP w stxt none)
        else if w = "\uFEFF" then do
          modify fun s => { s with linebuf := lb1 }
          nextSymLoop f
        else do
          modify fun s => { s with linebuf := lb1 }
          scanerror (.unrecognisedInput w)
          nextSymLoop f

/-- `__next__`: note the line of the last fetched symbol, then scan. -/
def nextSym : M Unit := do
  modify fun st => { st with prevline := st.sline }
  let st ← get
  let s ← nextSymLoop (scanFuel st)
  modify fun st2 => { st2 with sym := s }

/-! ### Symbol dereference (`fv1parse.__deref__`) -/

/-- The `while True` chain walk of `__deref__`.  Note the faithful quirk of
the source: the visited set receives the ORIGINAL `label` each iteration
(`seen.add(label)`), not the current `look`. -/
def derefLoop : ℕ → String → List String → String → M Val
  | 0, _, _, _ => throw .fuel
  | f + 1, label, seen, look => do
      if look ∈ seen then
        parseerror (.circularDef label)
      let st ← get
      match st.symtbl.lookup look with
      | some sv =>
          match sv with
          | .num v => pure v
          | .alias s' => derefLoop f label (label :: seen) s'
      | none => do
          parseerror (.valueUndefined label)
          derefLoop f label (label :: seen) look

/-- `__deref__(label)`: return a value defined in the symbol table.  The
source loop has no structural bound (it terminates through the error
ceiling); the fuel given here is ample for every run below. -/
def deref (label : String) : M Val := do
  let st ← get
  derefLoop ((MAXERR + 2) * (st.symtbl.length + 2)) label [] label

/-! ### Expression evaluator (`__expression__` .. `__atom__`)

Recursive descent over the token stream; one shared fuel argument bounds the
recursion depth (CPython itself enforces a recursion limit here). -/

mutual

def expression : ℕ → M Val
  | 0 => throw .fuel
  | f + 1 => do
      let st ← get
      if st.spinreals ∧ (st.sym.typ = .ASSEMBLER ∨ st.sym.typ = .ARGSEP
          ∨ st.sym.typ = .MNEMONIC ∨ st.sym.typ = .TARGET ∨ st.sym.typ = .EOF) then do
        -- assume the operand was omitted; do not consume the token
        parsewarn .missingArg
        pure (.int 0)
      else if st.sym.typ = .ASSEMBLER ∨ st.sym.typ = .EOF
          ∨ st.sym.typ = .MNEMONIC ∨ st.sym.typ = .TARGET then do
        parseerror .unexpectedTop
        pure (.int 0)
      else
        -- try: acc = or_expr()  except Exception: parseerror(str(e)); acc = 0
        -- (sys.exit is not an Exception and passes through).  The final
        -- isinstance(acc, (int, float)) guard always holds in this model:
        -- Val is numeric by construction.
        tryCatch (or_expr f)
          (fun e =>
            match e with
            | .pyexc _ => do
                parseerror .pyError
                pure (.int 0)
            | other => throw other)
termination_by structural f => f

def or_expr : ℕ → M Val
  | 0 => throw .fuel
  | f + 1 => do
      let acc ← xor_expr f
      orLoop f acc
termination_by structural f => f

def orLoop : ℕ → Val → M Val
  | 0, _ => throw .fuel
  | f + 1, acc => do
      let st ← get
      if st.sym.typ = .OPERATOR ∧ st.sym.stxt = "|" then do
        nextSym
        let r ← xor_expr f
        match pyOrOp acc r with
        | .ok v => orLoop f v
        | .error e => throw (.pyexc e)
      else
        pure acc
termination_by structural f _ => f

def xor_expr : ℕ → M Val
  | 0 => throw .fuel
  | f + 1 => do
      let acc ← and_expr f
      xorLoop f acc
termination_by structural f => f

def xorLoop : ℕ → Val → M Val
  | 0, _ => throw .fuel
  | f + 1, acc => do
      let st ← get
      if st.sym.typ = .OPERATOR ∧ st.sym.stxt = "^" then do
        nextSym
        let r ← and_expr f
        match pyXorOp acc r with
        | .ok v => xorLoop f v
        | .error e => throw (.pyexc e)
      else
        pure acc
termination_by structural f _ => f

def and_expr : ℕ → M Val
  | 0 => throw .fuel
  | f + 1 => do
      let acc ← shift_expr f
      andLoop f acc
termination_by structural f => f

def andLoop : ℕ → Val → M Val
  | 0, _ => throw .fuel
  | f + 1, acc => do
      let st ← get
      if st.sym.typ = .OPERATOR ∧ st.sym.stxt = "&" then do
        nextSym
        let r ← shift_expr f
        match pyAndOp acc r with
        | .ok v => andLoop f v
        | .error e => throw (.pyexc e)
      else
        pure acc
termination_by structural f _ => f

def shift_expr : ℕ → M Val
  | 0 => throw .fuel
  | f + 1 => do
      let acc ← a_expr f
      shiftLoop f acc
termination_by structural f => f

def shiftLoop : ℕ → Val → M Val
  | 0, _ => throw .fuel
  | f + 1, acc => do
      let st ← get
      if st.sym.typ = .OPERATOR ∧ (st.sym.stxt = "<<" ∨ st.sym.stxt = ">>") then do
        let op := st.sym.stxt
        nextSym
        let r ← shift_expr f
        let res := if op = "<<" then pyShlOp acc r else pyShrOp acc r
        match res with
        | .ok v => shiftLoop f v
        | .error e => throw (.pyexc e)
      else
        pure acc
termination_by structural f _ => f

def a_expr : ℕ → M Val
  | 0 => throw .fuel
  | f + 1 => do
      let acc ← m_expr f
      aLoop f acc
termination_by structural f => f

def aLoop : ℕ → Val → M Val
  | 0, _ => throw .fuel
  | f + 1, acc => do
      let st ← get
      if st.sym.typ = .OPERATOR ∧ (st.sym.stxt = "+" ∨ st.sym.stxt = "-") then do
        let op := st.sym.stxt
        nextSym
        let r ← m_expr f
        let v := if op = "+" then pyNumAdd acc r else pyNumSub acc r
        aLoop f v
      else
        pure acc
termination_by structural f _ => f

def m_expr : ℕ → M Val
  | 0 => throw .fuel
  | f + 1 => do
      let acc ← u_expr f
      mLoop f acc
termination_by structural f => f

def mLoop : ℕ → Val → M Val
  | 0, _ => throw .fuel
  | f + 1, acc => do
      let st ← get
      if st.sym.typ = .OPERATOR ∧ (st.sym.stxt = "*" ∨ st.sym.stxt = "//"
          ∨ st.sym.stxt = "/") then do
        let op := st.sym.stxt
        nextSym
        let r ← u_expr f
        if op = "*" then
          mLoop f (pyNumMul acc r)
        else
          let res := if op = "//" then pyNumFloorDiv acc r else pyNumDiv acc r
          match res with
          | .ok v => mLoop f v
          | .error e => throw (.pyexc e)
      else
        pure acc
termination_by structural f _ => f

def u_expr : ℕ → M Val
  | 0 => throw .fuel
  | f + 1 => do
      let st ← get
      if st.sym.typ = .OPERATOR ∧ (st.sym.stxt = "+" ∨ st.sym.stxt = "-"
          ∨ st.sym.stxt = "~" ∨ st.sym.stxt = "!" ∨ st.sym.stxt = "INT") then do
        let op := st.sym.stxt
        nextSym
        let acc ← u_expr f
        if op = "-" then
          pure (pyNeg acc)
        else if op = "~" ∨ op = "!" then
          match pyInv acc with
          | .ok v => pure v
          | .error e => throw (.pyexc e)
        else if op = "INT" then
          pure (pyIntRound acc)
        else
          pure acc
      else
        power f
termination_by structural f => f

def power : ℕ → M Val
  | 0 => throw .fuel
  | f + 1 => do
      let acc ← atom f
      let st ← get
      if st.sym.typ = .OPERATOR ∧ st.sym.stxt = "**" then do
        nextSym
        let r ← u_expr f
        match pyNumPow acc r with
        | .ok v => pure v
        | .error e => throw (.pyexc e)
      else
        pure acc
termination_by structural f => f

def atom : ℕ → M Val
  | 0 => throw .fuel
  | f + 1 => do
      let st ← get
      if st.sym.typ = .OPERATOR ∧ st.sym.stxt = "(" then do
        nextSym
        let ret ← expression f
        let st2 ← get
        if st2.sym.typ = .OPERATOR ∧ st2.sym.stxt = ")" then do
          nextSym
          pure ret
        else do
          parseerror (.expectedSaw (")"))
          pure ret
      else if st.sym.typ = .LABEL then
        if (st.symtbl.lookup st.sym.stxt).isSome then do
          let ret ← deref st.sym.stxt
          nextSym
          pure ret
        else do
          parseerror (.undefinedLabel st.sym.txt)
          nextSym
          pure (.int 0)
      else if st.sym.typ = .INTEGER ∨ st.sym.typ = .FLOAT then do
        nextSym
        pure (st.sym.val.getD (.int 0))
      else do
        parseerror .unexpectedInExpr
        let st2 ← get
        if ¬ (st2.sym.typ = .ARGSEP ∨ st2.sym.typ = .TARGET
            ∨ st2.sym.typ = .MNEMONIC ∨ st2.sym.typ = .EOF
            ∨ st2.sym.typ = .ASSEMBLER) then
          nextSym
        pure (.int 0)
termination_by structural f => f

end

/-! ### Statement parser (`__accept__`, `__instruction__`, `__target__`,
`__assembler__`, `parse`) -/

/-- Depth/length bound handed to the expression evaluator: proportional to
the remaining input plus the descent depth per token. -/
def exprFuel (st : St) : ℕ :=
  16 * (st.linebuf.length + (st.source.map (fun l => l.length + 1)).sum + 4) + 64

def SymType.tag : SymType → String
  | .EOF => "EOF"
  | .MNEMONIC => "MNEMONIC"
  | .ASSEMBLER => "ASSEMBLER"
  | .OPERATOR => "OPERATOR"
  | .INTEGER => "INTEGER"
  | .FLOAT => "FLOAT"
  | .TARGET => "TARGET"
  | .LABEL => "LABEL"
  | .ARGSEP => "ARGSEP"

/-- `__accept__(stype, message)`. -/
def accept (stype : SymType) (msg : Option Diag) : M Unit := do
  let st ← get
  if st.sym.typ = stype then
    nextSym
  else
    match msg with
    | some d => parseerror d
    | none => parseerror (.expectedSaw stype.tag)

/-- Wrap a pure coercer body: evaluate the operand expression, then emit the
coercer's diagnostics in order and return the field value. -/
def registerM : M ℤ := do
  let st ← get
  let v ← expression (exprFuel st)
  let p := register v
  emitDiags p.2
  pure p.1

def offsetM : M ℤ := do
  let st ← get
  let v ← expression (exprFuel st)
  let p := offset v
  emitDiags p.2
  pure p.1

def conditionM : M ℤ := do
  let st ← get
  let v ← expression (exprFuel st)
  let p := condition v
  emitDiags p.2
  pure p.1

def lfoM : M ℤ := do
  let st ← get
  let v ← expression (exprFuel st)
  let p := lfoSel v
  emitDiags p.2
  pure p.1

def s1_14M : M ℤ := do
  let st ← get
  let v ← expression (exprFuel st)
  let st2 ← get
  let p := s1_14 st2.doclamp v
  emitDiags p.2
  pure p.1

def s_10M : M ℤ := do
  let st ← get
  let v ← expression (exprFuel st)
  let st2 ← get
  let p := s_10 st2.doclamp v
  emitDiags p.2
  pure p.1

def s1_9M : M ℤ := do
  let st ← get
  let v ← expression (exprFuel st)
  let st2 ← get
  let p := s1_9 st2.doclamp v
  emitDiags p.2
  pure p.1

def s_23M : M ℤ := do
  let st ← get
  let v ← expression (exprFuel st)
  let st2 ← get
  let p := s_23 st2.doclamp v
  emitDiags p.2
  pure p.1

def s_15aM : M ℤ := do
  let st ← get
  let v ← expression (exprFuel st)
  let st2 ← get
  let p := s_15a st2.doclamp st2.spinreals v
  emitDiags p.2
  pure p.1

def u_32M : M ℤ := do
  let st ← get
  let v ← expression (exprFuel st)
  let st2 ← get
  let p := u_32 st2.doclamp v
  emitDiags p.2
  pure p.1

def d_15M : M ℤ := do
  let st ← get
  let v ← expression (exprFuel st)
  let st2 ← get
  let p := d_15 st2.doclamp v
  emitDiags p.2
  pure p.1

def lfo_sinfreqM : M ℤ := do
  let st ← get
  let v ← expression (exprFuel st)
  let st2 ← get
  let p := lfo_sinfreq st2.doclamp v
  emitDiags p.2
  pure p.1

def lfo_rampfreqM : M ℤ := do
  let st ← get
  let v ← expression (exprFuel st)
  let st2 ← get
  let p := lfo_rampfreq st2.doclamp v
  emitDiags p.2
  pure p.1

def lfo_rampampM : M ℤ := do
  let st ← get
  let v ← expression (exprFuel st)
  let p := lfo_rampamp v
  emitDiags p.2
  pure p.1

def choflagsM (lfo : ℤ) : M ℤ := do
  let st ← get
  let v ← expression (exprFuel st)
  let p := choflags lfo v
  emitDiags p.2
  pure p.1

/-- `__chotype__`: the symbol text is examined directly (not an operand). -/
def chotypeM : M ℤ := do
  let st ← get
  let chotype := st.sym.stxt
  nextSym
  if chotype = "RDA" ∨ chotype = "SOF" ∨ chotype = "RDAL" then do
    let st2 ← get
    pure (match st2.symtbl.lookup chotype with
          | some (.num (.int v)) => v
          | _ => 0)
  else do
    parseerror (.invalidChoType chotype)
    pure 0

/-- Append a parse-list record at the current instruction counter and
advance it. -/
def appendCmd (cmd : String × List ℤ) (target : Option String := none)
    (line : ℕ := 0) : M Unit :=
  modify fun s =>
    { s with
      pl := s.pl ++ [{ cmd := cmd, addr := s.icnt, target := target, line := line }],
      icnt := s.icnt + 1 }

/-- Skip to the next checkpoint after excess operands
(EOF/MNEMONIC/ASSEMBLER/LABEL). -/
def skipCk : ℕ → M Unit
  | 0 => throw .fuel
  | f + 1 => do
      let st ← get
      if st.sym.typ = .EOF ∨ st.sym.typ = .MNEMONIC
          ∨ st.sym.typ = .ASSEMBLER ∨ st.sym.typ = .LABEL then
        pure ()
      else do
        nextSym
        skipCk f

/-- Skip to the next checkpoint in the top-level loop
(EOF/MNEMONIC/ASSEMBLER/TARGET/LABEL). -/
def skipCk2 : ℕ → M Unit
  | 0 => throw .fuel
  | f + 1 => do
      let st ← get
      if st.sym.typ = .EOF ∨ st.sym.typ = .MNEMONIC ∨ st.sym.typ = .ASSEMBLER
          ∨ st.sym.typ = .TARGET ∨ st.sym.typ = .LABEL then
        pure ()
      else do
        nextSym
        skipCk2 f

/-- `__instruction__`: parse one instruction statement. -/
def instruction (f : ℕ) : M Unit := do
  let st0 ← get
  let mnemonic := st0.sym.stxt
  let opmsg : Diag := .missingOperand mnemonic
  accept .MNEMONIC none
  let st1 ← get
  if st1.icnt ≥ (PROGLEN : ℤ) then
    parseerror (.maxProgramExceeded mnemonic)
  if mnemonic = "AND" ∨ mnemonic = "OR" ∨ mnemonic = "XOR" then do
    let mask ← s_23M
    appendCmd (mnemonic, [mask])
  else if mnemonic = "SOF" ∨ mnemonic = "EXP" ∨ mnemonic = "LOG" then do
    let mult ← s1_14M
    accept .ARGSEP (some opmsg)
    let oft ← s_10M
    appendCmd (mnemonic, [mult, oft])
  else if mnemonic = "RDAX" ∨ mnemonic = "WRAX" ∨ mnemonic = "MAXX"
      ∨ mnemonic = "RDFX" ∨ mnemonic = "WRLX" ∨ mnemonic = "WRHX" then do
    let reg ← registerM
    accept .ARGSEP (some opmsg)
    let mult ← s1_14M
    appendCmd (mnemonic, [reg, mult])
  else if mnemonic = "MULX" then do
    let reg ← registerM
    appendCmd (mnemonic, [reg])
  else if mnemonic = "SKP" ∨ mnemonic = "JMP" then do
    let condv ←
      if mnemonic = "SKP" then do
        let c ← conditionM
        accept .ARGSEP (some opmsg)
        pure c
      else
        pure 0
    let st2 ← get
    let sourceline := st2.sline
    if st2.sym.typ = .LABEL ∨ st2.sym.typ = .TARGET then do
      let t := st2.sym.stxt
      nextSym
      appendCmd (("SKP"), [condv, 0x00]) (some t) sourceline
    else do
      let oft ← offsetM
      appendCmd (("SKP"), [condv, oft]) none sourceline
  else if mnemonic = "RDA" ∨ mnemonic = "WRA" ∨ mnemonic = "WRAP" then do
    let addr ← d_15M
    accept .ARGSEP (some opmsg)
    let mult ← s1_9M
    appendCmd (mnemonic, [addr, mult])
  else if mnemonic = "RMPA" then do
    let mult ← s1_9M
    appendCmd (mnemonic, [mult])
  else if mnemonic = "WLDS" then do
    let lfoRaw ← lfoM
    let lfo := Int.land lfoRaw 0x01
    accept .ARGSEP (some opmsg)
    let freq ← lfo_sinfreqM
    accept .ARGSEP (some opmsg)
    let amp ← d_15M
    appendCmd (mnemonic, [lfo, freq, amp])
  else if mnemonic = "WLDR" then do
    let lfoRaw ← lfoM
    let lfo := Int.lor lfoRaw 0x02
    accept .ARGSEP (some opmsg)
    let freq ← lfo_rampfreqM
    accept .ARGSEP (some opmsg)
    let amp ← lfo_rampampM
    appendCmd (mnemonic, [lfo, freq, amp])
  else if mnemonic = "CHO" then do
    let chotype ← chotypeM
    accept .ARGSEP (some opmsg)
    let lfo ← lfoM
    if chotype = 0x00 then do
      accept .ARGSEP (some opmsg)
      let flags ← choflagsM lfo
      accept .ARGSEP (some opmsg)
      let arg ← s_15aM
      appendCmd (("CHO"), [chotype, lfo, flags, arg])
    else if chotype = 0x02 then do
      accept .ARGSEP (some opmsg)
      let flags ← choflagsM lfo
      accept .ARGSEP (some opmsg)
      let arg ← s_15aM
      appendCmd (("CHO"), [chotype, lfo, flags, arg])
    else if chotype = 0x3 then do
      let st2 ← get
      if st2.sym.typ = .ARGSEP then do
        accept .ARGSEP none
        let flags ← choflagsM lfo
        appendCmd (("CHO"), [chotype, lfo, flags, 0x00])
      else
        appendCmd (("CHO"), [chotype, lfo, 0b000010, 0x00])
    else
      appendCmd (("CHO"), [chotype, lfo, 0b000010, 0x00])
  else if mnemonic = "JAM" then do
    let lfoRaw ← lfoM
    let lfo := Int.lor lfoRaw 0x02
    appendCmd (mnemonic, [lfo])
  else if mnemonic = "CLR" then
    appendCmd (("AND"), [0x00])
  else if mnemonic = "NOT" then
    appendCmd (("XOR"), [0xffffff])
  else if mnemonic = "NOP" then
    appendCmd (("NOP"), [0x0])
  else if mnemonic = "ABSA" then
    appendCmd (("MAXX"), [0x0, 0x0])
  else if mnemonic = "LDAX" then do
    let reg ← registerM
    appendCmd (("RDFX"), [reg, 0x0])
  else if mnemonic = "RAW" then do
    let mark ← u_32M
    appendCmd (("RAW"), [mark])
  else do
    parseerror .unexpectedInstruction
    throw (.exit (-4))
  let stE ← get
  if stE.sym.typ = .ARGSEP then do
    parseerror (.excessOperands mnemonic)
    skipCk f

/-- `__target__` in the monad, via the pure `targetStep`. -/
def targetM : M Unit := do
  let st ← get
  let p := targetStep st.jmptbl st.symtbl st.icnt st.sym.stxt
  emitDiags p.2
  modify fun s => { s with jmptbl := p.1 }
  nextSym

/-- `__assembler__`: parse an `EQU` or `MEM` statement (either label-first
or keyword-first ordering). -/
def assemblerM : M Unit := do
  let st ← get
  let arg1a : Option String ←
    if st.sym.typ = .LABEL then do
      let a := st.sym.stxt
      nextSym
      pure (some a)
    else
      pure none
  let st2 ← get
  if st2.sym.typ = .ASSEMBLER then do
    let typ := st2.sym.stxt
    nextSym
    let arg1b : Option String ←
      match arg1a with
      | some a => pure (some a)
      | none => do
          let st3 ← get
          if st3.sym.typ = .LABEL then do
            let a := st3.sym.stxt
            nextSym
            pure (some a)
          else do
            parseerror .expectedLabel
            pure none
    match arg1b with
    | none => pure ()
    | some a1 =>
        let arg1 := rstripModifiers a1
        if arg1 = "RDAL" ∨ arg1 = "SOF" ∨ arg1 = "RDA" then
          parseerror (.reservedLabel arg1)
        else do
          let st4 ← get
          if (st4.symtbl.lookup arg1).isSome then
            parsewarn (.labelRedefined arg1)
          let st5 ← get
          let arg2 ← expression (exprFuel st5)
          if typ = "MEM" then do
            let p : ℤ × List Diag :=
              if arg2.isIntegral then (arg2.truncInt, [])
              else (0, [.memNotInteger arg1])
            emitDiags p.2
            let st6 ← get
            let r := memApply st6.doclamp st6.symtbl st6.delaymem arg1 p.1
            emitDiags r.2.2
            modify fun s => { s with symtbl := r.1, delaymem := r.2.1 }
          else
            modify fun s => { s with symtbl := (arg1, SymVal.num arg2) :: s.symtbl }
  else
    parseerror .expectedEquMem

/-- The top-level statement loop of `parse`. -/
def parseLoop : ℕ → M Unit
  | 0 => throw .fuel
  | f + 1 => do
      let st ← get
      if st.sym.typ = .EOF then
        pure ()
      else do
        if st.sym.typ = .TARGET then
          targetM
        else if st.sym.typ = .MNEMONIC then
          instruction f
        else if st.sym.typ = .LABEL ∨ st.sym.typ = .ASSEMBLER then
          assemblerM
        else do
          parseerror .unexpectedTop
          skipCk2 f
        parseLoop f

/-- The backpatch pass over the parse list, emitting each record's
diagnostics as the loop reaches it. -/
def patchLoop : List PLEntry → M (List PLEntry)
  | [] => pure []
  | e :: rest => do
      let st ← get
      let p := patchOne st.jmptbl e
      emitDiags p.2
      let rest' ← patchLoop rest
      pure (p.1 :: rest')

/-- `parse()` followed by `__mkopcodes__`: scan/parse all statements, patch
skip targets, abort with status -3 when any error was counted, otherwise
produce the 512-byte image. -/
def parseAll (fuel : ℕ) : M (List ℕ) := do
  nextSym
  parseLoop fuel
  let st ← get
  let pl' ← patchLoop st.pl
  modify fun s => { s with pl := pl' }
  let st2 ← get
  if st2.ecount > 0 then do
    emitLog .errorsInInput
    throw (.exit (-3))
  else do
    emitLog (.infoReadInstructions st2.pl.length)
    pure (mkopcodes st2.pl)

def initSt (doclamp spinreals : Bool) (src : List (List String)) : St :=
  { doclamp := doclamp, spinreals := spinreals, delaymem := 0, prevline := 0,
    sline := 0, icnt := 0, sym := eofSym, ecount := 0, source := src,
    linebuf := [], pl := [], jmptbl := [], symtbl := initSymtbl, log := [] }

/-- Run one assembly session on pre-lexed source lines, returning the
outcome (512-byte image or exit code) together with the final state. -/
def assemble (doclamp spinreals : Bool) (src : List (List String))
    (fuel : ℕ) : Except PErr (List ℕ) × St :=
  ((parseAll fuel).run).run (initSt doclamp spinreals src)

/-! ### Claim theorems -/

set_option maxRecDepth 10000

theorem bytes_length (l : List PLEntry) :
    (l.flatMap (fun e => wordBytes (op_gen e.cmd).toNat)).length = 4 * l.length := by
  induction l with
  | nil => rfl
  | cons e tl ih =>
      rw [List.flatMap_cons, List.length_append, ih]
      simp only [wordBytes, List.length_cons, List.length_nil, List.length_cons]
      omega

theorem bytes_drop (l : List PLEntry) (i : ℕ) :
    (l.flatMap (fun e => wordBytes (op_gen e.cmd).toNat)).drop (4 * i)
      = (l.drop i).flatMap (fun e => wordBytes (op_gen e.cmd).toNat) := by
  induction l generalizing i with
  | nil => simp
  | cons e tl ih =>
      cases i with
      | zero => simp
      | succ j =>
          rw [List.flatMap_cons]
          have h4 : 4 * (j + 1) = 4 + 4 * j := by ring
          rw [h4, ← List.drop_drop (4 * j) 4, List.drop_left' (by simp [wordBytes]), ih]
          simp

/-- C1 counterexample: the padding instruction `SKP 0,0` encodes to
`0x00000011` (opcode `0b10001` in bits 0-4, as in the FV-1 instruction
format and the spec's own `SOF` example), not to `0x88000000`: the first
padded word of the empty program is the bytes `00 00 00 11`. -/
theorem claimC1_counterexample :
    op_gen (("SKP"), [0, 0]) = 0x11
    ∧ op_gen (("SKP"), [0, 0]) ≠ 0x88000000
    ∧ ((mkopcodes []).drop 0).take 4 = [0x00, 0x00, 0x00, 0x11]
    ∧ ((mkopcodes []).drop 0).take 4 ≠ [0x88, 0x00, 0x00, 0x00] := by
  refine ⟨by decide, by decide, by decide, by decide⟩

/-- C1 (amended): every assembly whose parse list holds at most 128
instructions (true of every successful assembly: a 129th instruction raises
an error, and any error aborts with status -3 before `__mkopcodes__`)
produces exactly 512 bytes, and every slot `i` in `[n, 128)` holds the
big-endian word `0x00000011` = `SKP 0,0` (not `0x88000000` as claimed). -/
theorem claimC1_amended (pl : List PLEntry) (h : pl.length ≤ 128) :
    (mkopcodes pl).length = 512
    ∧ ∀ i : ℕ, pl.length ≤ i → i < 128 →
        ((mkopcodes pl).drop (4 * i)).take 4 = [0x00, 0x00, 0x00, 0x11] := by
  have hpadlen : (padPl pl).length = 128 := by
    simp only [padPl, List.length_append, List.length_map, List.length_range', PROGLEN]
    omega
  constructor
  · rw [mkopcodes, bytes_length, hpadlen]
  · intro i h1 h2
    rw [mkopcodes, bytes_drop]
    have hb : i < (padPl pl).length := by rw [hpadlen]; omega
    rw [List.drop_eq_getElem_cons hb, List.flatMap_cons]
    have hcmd : ((padPl pl).get ⟨i, hb⟩).cmd = (("SKP"), [0x00, 0x00]) := by
      have hb2 : pl.length ≤ i := h1
      rw [List.get_eq_getElem]
      simp only [padPl]
      rw [List.getElem_append_right hb2]
      simp
    rw [List.get_eq_getElem] at hcmd
    rw [hcmd]
    have hop : (op_gen (("SKP"), [0x00, 0x00])).toNat = 17 := by decide
    rw [hop, List.take_left' (by rfl)]
    decide

/-- C1 amended, witnessed at the empty parse list and padding slot 0. -/
theorem claimC1_amended_witness :
    (mkopcodes []).length = 512
    ∧ ((mkopcodes []).drop (4 * 0)).take 4 = [0x00, 0x00, 0x00, 0x11] :=
  ⟨(claimC1_amended [] (by norm_num)).1,
   (claimC1_amended [] (by norm_num)).2 0 (by norm_num) (by norm_num)⟩

/-- C2: classification of the backpatch step for a `SKP` record with a
symbolic target `t` at address `a`.  An undefined target, a target not
strictly ahead (`d = jmptbl[t] - a - 1 ≤ -1`), or `d > 63` each yield an
error diagnostic (which makes the assembly abort with status -3, since
`parse` exits when the error count is nonzero); otherwise the 6-bit offset
slot is overwritten with `d ∈ [0, 63]` and no diagnostic is emitted. -/
theorem claimC2 (jt : List (String × ℤ)) (e : PLEntry) (c o : ℤ) (t : String)
    (hcmd : e.cmd = (("SKP"), [c, o])) (ht : e.target = some t) :
    (jt.lookup t = none →
        patchOne jt e = (e, [.undefinedTargetSkp t]))
    ∧ (∀ dest : ℤ, jt.lookup t = some dest →
        (dest ≤ e.addr → patchOne jt e = (e, [.skpNotFollow t]))
        ∧ (e.addr < dest → 63 < dest - e.addr - 1 →
            patchOne jt e = (e, [.skpTooLarge t (dest - e.addr - 1)]))
        ∧ (e.addr < dest → dest - e.addr - 1 ≤ 63 →
            patchOne jt e
              = ({ e with cmd := (("SKP"), [c, dest - e.addr - 1]) }, [])
            ∧ 0 ≤ dest - e.addr - 1))
    ∧ (Diag.undefinedTargetSkp t).isError = true
    ∧ (Diag.skpNotFollow t).isError = true
    ∧ (∀ oft : ℤ, (Diag.skpTooLarge t oft).isError = true) := by
  have hc1 : e.cmd.1 = "SKP" := by rw [hcmd]
  have hc2 : e.cmd.2 = [c, o] := by rw [hcmd]
  refine ⟨?_, ?_, rfl, rfl, fun _ => rfl⟩
  · intro hnone
    simp [patchOne, hc1, ht, hnone]
  · intro dest hdest
    have hM : (M6 : ℤ) = 63 := by norm_num [M6]
    refine ⟨?_, ?_, ?_⟩
    · intro hle
      have : ¬ dest > e.addr := by omega
      simp [patchOne, hc1, ht, hdest, this]
    · intro hgt hbig
      have hc : dest - e.addr - 1 > M6 := by omega
      simp [patchOne, hc1, ht, hdest, hgt, hc]
    · intro hgt hsmall
      have hc : ¬ (dest - e.addr - 1 > M6) := by omega
      refine ⟨?_, by omega⟩
      simp [patchOne, hc1, ht, hdest, hgt, hc, hcmd, hc2, List.set]

/-- C2 witnessed: a `SKP` at address 0 whose target sits at address 3 gets
offset 2 patched in with no diagnostics. -/
theorem claimC2_witness :
    patchOne [(("X"), 3)] ⟨(("SKP"), [0, 0]), 0, some ("X"), 0⟩
        = ({ cmd := (("SKP"), [0, 2]), addr := 0, target := some ("X"), line := 0 }, [])
    ∧ (0 : ℤ) ≤ 2 := by
  have h := ((claimC2 [(("X"), 3)] ⟨(("SKP"), [0, 0]), 0, some ("X"), 0⟩ 0 0 ("X")
      rfl rfl).2.1 3 (by decide)).2.2 (by norm_num) (by norm_num)
  exact ⟨h.1, by norm_num⟩

def fmtList : List FixedFmt := [fmtS1_14, fmtS1_9, fmtS_10, fmtS_15, fmtS4_6, fmtS_23]

theorem roundEven_zero : roundEven 0 = 0 := by with_unfolding_all rfl

/-- Python `round` of an exact integer is that integer. -/
theorem roundEven_intCast (i : ℤ) : roundEven (i : ℚ) = i := by
  simp only [roundEven, Int.floor_intCast, sub_self]
  norm_num

/-- C3: behaviour of the fixed-point coercers for the six formats.  For an
integer the field mask range `[0, 2^W - 1]` is tested, with clamp-and-warn
or reject-with-0; for a real, the `[MIN, MAX]` range is tested with the same
policy and the result is `round(v * REF)` (half-to-even).  The trailing
conjuncts tie the named coercers of the source to the common body (`S_15`
via `__s_15a__` in the default non-spinreals mode) and record the field
widths `2^16`, `2^11`, `2^11`, `2^16`, `2^11`, `2^24`. -/
theorem claimC3 :
    (∀ F ∈ fmtList, ∀ (dc : Bool) (v : Val),
      (∀ i : ℤ, v = .int i →
        (0 ≤ i ∧ i ≤ F.mask → sn_d F dc v = (i, []))
        ∧ ((i < 0 ∨ i > F.mask) → dc = true →
            sn_d F dc v = ((if i < 0 then 0 else F.mask), [.argClamped F.name]))
        ∧ ((i < 0 ∨ i > F.mask) → dc = false →
            sn_d F dc v = (0, [.argOutOfRange F.name])))
      ∧ (∀ q : ℚ, v = .real q →
        (F.qmin ≤ q ∧ q ≤ F.qmax → sn_d F dc v = (roundEven (q * F.ref), []))
        ∧ ((q < F.qmin ∨ q > F.qmax) → dc = true →
            sn_d F dc v
              = (roundEven ((if q < F.qmin then F.qmin else F.qmax) * F.ref),
                 [.argClamped F.name]))
        ∧ ((q < F.qmin ∨ q > F.qmax) → dc = false →
            sn_d F dc v = (0, [.argOutOfRange F.name]))))
    ∧ s1_14 = sn_d fmtS1_14
    ∧ s1_9 = sn_d fmtS1_9
    ∧ s_10 = sn_d fmtS_10
    ∧ (∀ (dc : Bool) (v : Val), s_15a dc false v = sn_d fmtS_15 dc v)
    ∧ s4_6 = sn_d fmtS4_6
    ∧ s_23 = sn_d fmtS_23
    ∧ fmtS1_14.mask + 1 = 2 ^ 16 ∧ fmtS1_9.mask + 1 = 2 ^ 11
    ∧ fmtS_10.mask + 1 = 2 ^ 11 ∧ fmtS_15.mask + 1 = 2 ^ 16
    ∧ fmtS4_6.mask + 1 = 2 ^ 11 ∧ fmtS_23.mask + 1 = 2 ^ 24 := by
  refine ⟨?_, rfl, rfl, rfl, ?_, rfl, rfl, by decide, by decide, by decide,
    by decide, by decide, by decide⟩
  · intro F _ dc v
    constructor
    · intro i hv
      subst hv
      refine ⟨?_, ?_, ?_⟩
      · rintro ⟨h0, h1⟩
        simp [sn_d, show ¬(i < 0 ∨ i > F.mask) by omega]
      · intro hout hdc
        subst hdc
        simp [sn_d, hout]
      · intro hout hdc
        subst hdc
        simp [sn_d, hout]
    · intro q hv
      subst hv
      refine ⟨?_, ?_, ?_⟩
      · rintro ⟨h0, h1⟩
        have hcond : ¬(q < F.qmin ∨ q > F.qmax) := by
          rw [not_or]
          exact ⟨not_lt.mpr h0, not_lt.mpr h1⟩
        simp [sn_d, hcond]
      · intro hout hdc
        subst hdc
        simp [sn_d, hout]
      · intro hout hdc
        subst hdc
        simp [sn_d, hout, roundEven_zero]
  · intro dc v
    simp [s_15a]

/-- C3 witnessed: `S1_14` accepts the integer 5 verbatim and `S_23` encodes
the real 1/2 as `round(1/2 · 2^23) = 0x400000`. -/
theorem claimC3_witness :
    sn_d fmtS1_14 false (.int 5) = (5, [])
    ∧ sn_d fmtS_23 false (.real (1 / 2)) = (4194304, []) := by
  constructor
  · exact ((claimC3.1 fmtS1_14 (by simp [fmtList]) false (.int 5)).1 5 rfl).1
      ⟨by norm_num, by norm_num [fmtS1_14, M16]⟩
  · have h := ((claimC3.1 fmtS_23 (by simp [fmtList]) false (.real (1 / 2))).2
      (1 / 2) rfl).1
      ⟨by norm_num [fmtS_23, MIN_S_23], by norm_num [fmtS_23, MAX_S_23]⟩
    rw [h, show roundEven (1 / 2 * fmtS_23.ref) = 4194304 from by with_unfolding_all rfl]

theorem self_ne_append (s a : String) (h : a ≠ ("")) : s ≠ s ++ a := by
  intro he
  have hlen := congrArg String.length he
  rw [String.length_append] at hlen
  have ha : a.length = 0 := by omega
  apply h
  cases a with
  | mk data =>
      cases data with
      | nil => rfl
      | cons c cs => simp [String.length] at ha

theorem append_ne_append (s a b : String) (h : a ≠ b) : s ++ a ≠ s ++ b := by
  intro he
  apply h
  have hd := congrArg String.data he
  rw [String.data_append, String.data_append] at hd
  have hab := List.append_cancel_left hd
  cases a
  cases b
  exact congrArg String.mk hab

/-- C4: after `name MEM n` with an integer `n ∈ [0, 32767]` and sufficient
remaining delay memory, the symbol table maps `name` to the base `b`,
`name#` to `b + n` and `name^` to `b + ⌊n/2⌋`, the cursor advances to
`b + n + 1`, and no diagnostic is emitted. -/
theorem claimC4 (doclamp : Bool) (symtbl : List (String × SymVal))
    (delaymem n : ℤ) (name : String)
    (hn0 : 0 ≤ n) (hn1 : n ≤ 32767)
    (hmem : delaymem ≤ 32767) (hfit : delaymem + n ≤ 32767) :
    ((memApply doclamp symtbl delaymem name n).1.lookup name
        = some (.num (.int delaymem)))
    ∧ ((memApply doclamp symtbl delaymem name n).1.lookup (name ++ ("#"))
        = some (.num (.int (delaymem + n))))
    ∧ ((memApply doclamp symtbl delaymem name n).1.lookup (name ++ ("^"))
        = some (.num (.int (delaymem + n / 2))))
    ∧ (memApply doclamp symtbl delaymem name n).2.1 = delaymem + n + 1
    ∧ (memApply doclamp symtbl delaymem name n).2.2 = [] := by
  have hDS : DELAYSIZE = (32767 : ℤ) := rfl
  have hcond : ¬(n < 0 ∨ n > DELAYSIZE) := by rw [hDS]; omega
  have hex : ¬(delaymem > DELAYSIZE) := by rw [hDS]; omega
  have htop : ¬(delaymem + n > DELAYSIZE) := by rw [hDS]; omega
  have e1 : name ≠ name ++ ("^") := self_ne_append name ("^") (by decide)
  have e2 : name ≠ name ++ ("#") := self_ne_append name ("#") (by decide)
  have e3 : (name ++ ("#")) ≠ name ++ ("^") :=
    append_ne_append name ("#") ("^") (by decide)
  have b1 : (name == name ++ ("^")) = false := beq_eq_false_iff_ne.mpr e1
  have b2 : (name == name ++ ("#")) = false := beq_eq_false_iff_ne.mpr e2
  have b3 : ((name ++ ("#")) == name ++ ("^")) = false := beq_eq_false_iff_ne.mpr e3
  refine ⟨?_, ?_, ?_, ?_, ?_⟩ <;>
    simp [memApply, hcond, hex, htop, List.lookup, b1, b2, b3]

/-- C4 witnessed: `X MEM 100` at base 0 binds `X`=0, `X#`=100, `X^`=50 and
advances the cursor to 101 with no diagnostics. -/
theorem claimC4_witness :
    ((memApply false [] 0 ("X") 100).1.lookup ("X") = some (.num (.int 0)))
    ∧ ((memApply false [] 0 ("X") 100).1.lookup (("X") ++ ("#"))
        = some (.num (.int 100)))
    ∧ ((memApply false [] 0 ("X") 100).1.lookup (("X") ++ ("^"))
        = some (.num (.int 50)))
    ∧ (memApply false [] 0 ("X") 100).2.1 = 101
    ∧ (memApply false [] 0 ("X") 100).2.2 = [] := by
  have h := claimC4 false [] 0 100 ("X") (by norm_num) (by norm_num)
    (by norm_num) (by norm_num)
  simpa using h

/-- C5 counterexample: the integer operand `-1` falls inside the real S_15
range `[-1.0, MAX_S_15]`, so `__d_15__` scales it as the real `-1.0` to
`-32768` (no error, no clamp); the encoded 15-bit field is
`-32768 & 0x7fff = 0`, not `-1 mod 2^15 = 32767` — e.g. `RDA -1,0`
encodes address 0. -/
theorem claimC5_counterexample :
    d_15 false (.int (-1)) = (-32768, [])
    ∧ Int.land (-32768) M15 = 0
    ∧ (-1 : ℤ) % 2 ^ 15 = 32767
    ∧ (0 : ℤ) ≠ 32767
    ∧ op_gen (("RDA"), [(d_15 false (.int (-1))).1, 0]) = 0 := by
  have hd : d_15 false (.int (-1)) = (-32768, []) := by with_unfolding_all rfl
  have hmask : Int.land (-32768) M15 = 0 := by
    rw [show M15 = (2 : ℤ) ^ 15 - 1 from by norm_num [M15], int_land_mask]
    decide
  refine ⟨hd, hmask, by decide, by decide, ?_⟩
  rw [hd]
  have h := opGen_masked (("RDA"), 0b00000, [(M15, 5), (M11, 21)]) (by decide)
    [-32768, 0]
  rw [h.1]
  decide

/-- C5 (amended): for every integer `v ∈ [-0x8000, 0x7fff]` other than `-1`,
the delay-address coercer accepts `v` unchanged with no diagnostics, and the
masked 15-bit field `v & 0x7fff` equals `v mod 2^15`.  (At `v = -1` the
value is treated as the real `-1.0` and the field becomes 0, see the
counterexample; `v = 0` also takes the real path but scales to 0 = v.) -/
theorem claimC5_amended (doclamp : Bool) (v : ℤ)
    (h1 : -0x8000 ≤ v) (h2 : v ≤ 0x7fff) (h3 : v ≠ -1) :
    d_15 doclamp (.int v) = (v, []) ∧ Int.land v M15 = v % 2 ^ 15 := by
  constructor
  · by_cases h0 : v = 0
    · subst h0
      have hcond : ¬((Val.int 0).toQ < MIN_S_15 ∨ (Val.int 0).toQ > MAX_S_15) := by
        rw [not_or]
        exact ⟨by norm_num [Val.toQ, MIN_S_15], by norm_num [Val.toQ, MAX_S_15]⟩
      simp only [d_15, if_neg hcond]
      rw [show (Val.int 0).toQ * REF_S_15 = 0 from by simp [Val.toQ]]
      rw [roundEven_zero]
    · have hq : ((Val.int v).toQ < MIN_S_15 ∨ (Val.int v).toQ > MAX_S_15) := by
        have hsplit : v ≤ -2 ∨ 1 ≤ v := by omega
        rcases hsplit with hs | hs
        · left
          show ((v : ℤ) : ℚ) < MIN_S_15
          have : ((v : ℤ) : ℚ) ≤ -2 := by exact_mod_cast hs
          have hm : MIN_S_15 = -1 := by norm_num [MIN_S_15]
          rw [hm]
          linarith
        · right
          show ((v : ℤ) : ℚ) > MAX_S_15
          have : (1 : ℚ) ≤ ((v : ℤ) : ℚ) := by exact_mod_cast hs
          have hm : MAX_S_15 < 1 := by norm_num [MAX_S_15]
          linarith
      have hrange : ¬(v < -0x8000 ∨ v > M15) := by
        rw [show (M15 : ℤ) = 32767 from rfl]
        omega
      simp only [d_15, if_pos hq]
      rw [show (Val.int v).toQ = (v : ℚ) from rfl, roundEven_intCast]
      simp [hrange]
  · rw [show (M15 : ℤ) = 2 ^ 15 - 1 from by norm_num [M15], int_land_mask]

/-- C5 amended, witnessed at `v = -2`: accepted unchanged, field
`-2 & 0x7fff = 32766 = -2 mod 2^15`. -/
theorem claimC5_amended_witness :
    d_15 false (.int (-2)) = (-2, []) ∧ Int.land (-2) M15 = (-2 : ℤ) % 2 ^ 15 :=
  claimC5_amended false (-2) (by norm_num) (by norm_num) (by decide)

/-- C6 counterexample: `X MEM 32767` starting from an empty delay memory is
accepted without any diagnostic, yet leaves the cursor at 32768 > 32767:
the claimed invariant `delaymem ≤ DELAYSIZE` does not hold after every MEM
declaration. -/
theorem claimC6_counterexample :
    (memApply false [] 0 ("X") 32767).2.2 = []
    ∧ (memApply false [] 0 ("X") 32767).2.1 = 32768
    ∧ ¬((memApply false [] 0 ("X") 32767).2.1 ≤ 32767) := by
  refine ⟨by with_unfolding_all rfl, by decide, by decide⟩

/-- C6 (amended): after a MEM declaration that emits no error diagnostic,
the cursor is at most `DELAYSIZE + 1 = 32768` (the cursor points one cell
past the region, so a full allocation legitimately parks it at 32768; while
errors accumulate the cursor can grow arbitrarily, but any error aborts the
assembly with status -3). -/
theorem claimC6_amended (doclamp : Bool) (symtbl : List (String × SymVal))
    (delaymem n : ℤ) (name : String)
    (hnoerr : ∀ d ∈ (memApply doclamp symtbl delaymem name n).2.2,
        d.isError = false) :
    (memApply doclamp symtbl delaymem name n).2.1 ≤ 32768 := by
  have hDS : DELAYSIZE = (32767 : ℤ) := rfl
  simp only [memApply] at hnoerr ⊢
  set p : ℤ × List Diag :=
    (if n < 0 ∨ n > DELAYSIZE then
      if doclamp = true then ((if n < 0 then 0 else DELAYSIZE), [])
      else (0, [.invalidMemSize n])
    else (n, [])) with hp
  by_cases h1 : delaymem > DELAYSIZE
  · exact absurd (hnoerr Diag.delayExhausted (by simp [h1])) (by decide)
  · by_cases h2 : delaymem + p.1 > DELAYSIZE
    · exact absurd (hnoerr (Diag.delayExceeds p.1) (by simp [h1, h2]))
        (by simp [Diag.isError])
    · rw [hDS] at h2
      omega

/-- C6 amended, witnessed at the boundary allocation `X MEM 32767`. -/
theorem claimC6_amended_witness :
    (memApply false [] 0 ("X") 32767).2.1 ≤ 32768 :=
  claimC6_amended false [] 0 32767 ("X") (by decide)

/-- C7 counterexample: assembling the two-line source `A EQU B` / `B EQU A`
does fail (status -3), but with "Undefined label B", never with "Circular
definition": in v1.2.7 `EQU` binds the evaluated numeric value of its
expression (undefined labels evaluate to 0 with an error), so the symbol
table never holds an alias and the circular-definition branch of
`__deref__` is unreachable. -/
theorem claimC7_counterexample :
    (assemble false false [["A", "EQU", "B"], ["B", "EQU", "A"]] 300).1
        = .error (.exit (-3))
    ∧ ((assemble false false [["A", "EQU", "B"], ["B", "EQU", "A"]] 300).2.log.all
        (fun d => !d.isCircular)) = true := by
  exact ⟨by with_unfolding_all rfl, by with_unfolding_all rfl⟩

/-- C7 (amended): the run terminates (no fuel exhaustion) and aborts with
exit status -3; its full diagnostic log is exactly
`[Undefined label B, errors in input]`, and both `A` and `B` end up bound
to the numeric 0 (the error-recovery value), not to aliases. -/
theorem claimC7_amended :
    (assemble false false [["A", "EQU", "B"], ["B", "EQU", "A"]] 300).1
        = .error (.exit (-3))
    ∧ (assemble false false [["A", "EQU", "B"], ["B", "EQU", "A"]] 300).2.log
        = [.undefinedLabel ("B"), .errorsInInput]
    ∧ (assemble false false [["A", "EQU", "B"], ["B", "EQU", "A"]] 300).2.symtbl.lookup ("A")
        = some (.num (.int 0))
    ∧ (assemble false false [["A", "EQU", "B"], ["B", "EQU", "A"]] 300).2.symtbl.lookup ("B")
        = some (.num (.int 0)) := by
  exact ⟨by with_unfolding_all rfl, by with_unfolding_all rfl,
    by with_unfolding_all rfl, by with_unfolding_all rfl⟩

/-- C8: the CHO flags coercer accepts integer flags in `0..63` and masks
them to `0x3e` when bit 1 of the LFO selector is set (ramp LFO) or to
`0x0f` otherwise, warning exactly when set bits are discarded; an
out-of-range value is rejected with an error and 0 substituted. -/
theorem claimC8 (lfo f : ℤ) :
    (0 ≤ f → f ≤ 63 →
      (Int.land lfo 0x02 ≠ 0 →
        choflags lfo (.int f)
          = (Int.land f 0x3e,
             if f ≠ Int.land f 0x3e then [.rmpFlagsSet (Int.land f 0x3e)] else []))
      ∧ (Int.land lfo 0x02 = 0 →
        choflags lfo (.int f)
          = (Int.land f 0x0f,
             if f ≠ Int.land f 0x0f then [.sinFlagsSet (Int.land f 0x0f)] else [])))
    ∧ ((f < 0 ∨ 63 < f) → choflags lfo (.int f) = (0, [.invalidChoFlags])) := by
  have hM : (M6 : ℤ) = 63 := by norm_num [M6]
  constructor
  · intro h0 h1
    have hin : ¬(f < 0 ∨ f > M6) := by rw [hM]; omega
    constructor
    · intro hlfo
      simp [choflags, hin, hlfo, Val.isIntegral, Val.truncInt]
    · intro hlfo
      simp [choflags, hin, hlfo, Val.isIntegral, Val.truncInt]
  · intro hout
    have hout2 : (f < 0 ∨ f > M6) := by rw [hM]; omega
    have hz1 : Int.land 0 0x3e = 0 := by decide
    have hz2 : Int.land 0 0x0f = 0 := by decide
    by_cases hlfo : Int.land lfo 0x02 = 0 <;>
      simp [choflags, hout2, hlfo, hz1, hz2, Val.isIntegral, Val.truncInt]

/-- C8 witnessed: ramp LFO (selector 2) with flags 31 = 0b11111 masks to
0b11110 = 30 and warns. -/
theorem claimC8_witness : choflags 2 (.int 31) = (30, [.rmpFlagsSet 30]) := by
  have h := ((claimC8 2 31).1 (by norm_num) (by norm_num)).1 (by decide)
  rw [h]
  with_unfolding_all rfl

/-- C9: for every mnemonic of the opcode table and arbitrary integer operand
values (negative or wider than the field included), `op_gen` yields
`opcode + Σ (argᵢ mod 2^kᵢ) · 2^sᵢ`, a word in `[0, 2^32)`: each operand is
masked to its own field before shifting, so it cannot overflow the 32-bit
word, disturb another operand's field, or (for every mnemonic except `RAW`,
whose single field deliberately spans the whole word) alter the opcode in
bits 0-4. -/
theorem claimC9 :
    ∀ e ∈ op_tbl, ∀ args : List ℤ,
      op_gen (e.1, args) = e.2.1 + fieldSum e.2.2 args
      ∧ 0 ≤ op_gen (e.1, args)
      ∧ op_gen (e.1, args) < 2 ^ 32
      ∧ (e.1 ≠ "RAW" → op_gen (e.1, args) % 32 = e.2.1) :=
  opGen_masked

/-- C9 witnessed at `RDA` with out-of-range negative operands: the word is
the masked normal form, stays inside 32 bits, and keeps opcode 0. -/
theorem claimC9_witness :
    op_gen (("RDA"), [-2, -1]) = 0 + fieldSum [(M15, 5), (M11, 21)] [-2, -1]
    ∧ 0 ≤ op_gen (("RDA"), [-2, -1])
    ∧ op_gen (("RDA"), [-2, -1]) < 2 ^ 32
    ∧ (("RDA") ≠ "RAW" → op_gen (("RDA"), [-2, -1]) % 32 = 0) :=
  claimC9 (("RDA"), 0b00000, [(M15, 5), (M11, 21)]) (by decide) [-2, -1]

/-- C10: processing a label definition always ends with the jump table
mapping the label to the current instruction counter — the two error paths
("Target .. redefined" when bound to a different address, "Target .. already
assigned" when the name is a symbol) still fall through to the
assignment. -/
theorem claimC10 (jt : List (String × ℤ)) (stbl : List (String × SymVal))
    (icnt : ℤ) (lbl : String) :
    ((targetStep jt stbl icnt lbl).1.lookup lbl = some icnt)
    ∧ (∀ prev : ℤ, jt.lookup lbl = some prev → icnt ≠ prev →
        Diag.targetRedefined lbl ∈ (targetStep jt stbl icnt lbl).2)
    ∧ ((stbl.lookup lbl).isSome →
        Diag.targetAssigned lbl ∈ (targetStep jt stbl icnt lbl).2)
    ∧ (Diag.targetRedefined lbl).isError = true
    ∧ (Diag.targetAssigned lbl).isError = true := by
  refine ⟨?_, ?_, ?_, rfl, rfl⟩
  · simp [targetStep, List.lookup]
  · intro prev hprev hne
    simp [targetStep, hprev, hne]
  · intro hsome
    simp [targetStep, hsome]

/-- C10 witnessed: label `L` already in the jump table at address 5 and in
the symbol table; redefining it at counter 7 reports both errors yet the
jump table ends up mapping `L` to 7. -/
theorem claimC10_witness :
    ((targetStep [(("L"), 5)] [(("L"), .num (.int 1))] 7 ("L")).1.lookup ("L")
        = some 7)
    ∧ Diag.targetRedefined ("L")
        ∈ (targetStep [(("L"), 5)] [(("L"), .num (.int 1))] 7 ("L")).2
    ∧ Diag.targetAssigned ("L")
        ∈ (targetStep [(("L"), 5)] [(("L"), .num (.int 1))] 7 ("L")).2 := by
  have h := claimC10 [(("L"), 5)] [(("L"), .num (.int 1))] 7 ("L")
  exact ⟨h.1, h.2.1 5 (by decide) (by decide), h.2.2.1 (by decide)⟩

end Asfv1
